import Mathlib

/-!
Verification of the RPGCompanion session turn/state coordinator.

This file shallowly embeds the in-memory storage backend (`MemStorage` in
`server/storage.ts`), the relevant HTTP route handlers (`server/routes.ts`) and
the client-side word generator (`client/src/components/WordDictionary.tsx`).
JavaScript `Map`s are represented as association lists in insertion order
(`Map.set` replaces the entry with the matching key, or appends a fresh one);
JavaScript `Set`s of owner ids are represented as duplicate-free lists in
insertion order.  Nullable database columns are represented with `Option`, and
the JavaScript truthiness coercions (`x || d`, `x ?? d`, `x || null`) are
modelled explicitly by the `jsOr`-family of helpers, so that the value `0`
and the empty string are coerced exactly as the source coerces them.
`Array.prototype.sort` with a numeric comparator `cmp` is modelled by a stable
insertion sort with respect to the boolean relation `cmp a b ≤ 0`, which is
the unique output of any stable sort for a consistent comparator (V8's sort is
stable).  Dates (`joinedAt`, obtained from `new Date()`) are modelled as
integer timestamps (`getTime()`).
-/

namespace RPGCompanion

/-- JavaScript `x || d` for a number `x`: `0` is falsy and replaced by `d`. -/
def jsOr (x d : Int) : Int := if x = 0 then d else x

/-- JavaScript `x || d` for a nullable/optional number `x`:
`null`, `undefined` and `0` are all replaced by `d`. -/
def jsOrN (x : Option Int) (d : Int) : Int :=
  match x with
  | none => d
  | some v => if v = 0 then d else v

/-- JavaScript `x || null` for a nullable/optional number: `0` becomes `null`. -/
def jsOrNull (x : Option Int) : Option Int :=
  match x with
  | none => none
  | some v => if v = 0 then none else some v

/-- JavaScript `x || d` for a nullable/optional string: `null`/`undefined`
and the empty string are falsy. -/
def strOr (x : Option String) (d : String) : String :=
  match x with
  | none => d
  | some s => if s = "" then d else s

/-- JavaScript `x || null` for a nullable/optional string. -/
def strOrNull (x : Option String) : Option String :=
  match x with
  | none => none
  | some s => if s = "" then none else some s

/-- A row of the `session_players` table as held by `MemStorage`
(`MemStorage.joinSession` always stores concrete numbers for `nerve` and
`maxNerve`, so those are not optional here; `turnOrder` can be `null`). -/
structure SessionPlayer where
  sessionId : Nat
  userId : String
  playerName : Option String
  nerve : Int
  maxNerve : Int
  turnOrder : Option Int
  isActive : Bool
  isActiveTurn : Bool
  joinedAt : Int
deriving DecidableEq

/-- A row of the `game_sessions` table as held by `MemStorage`
(`createGameSession` coerces the prep fields, `vowels`, `currentTurn` and
`isActive` to concrete values; `createdAt` and `prepWordMeanings` are not
needed by any property below and are omitted). -/
structure GameSession where
  id : Nat
  code : String
  name : String
  gmId : String
  encounterSentence : Option String
  encounterNoun : Option String
  encounterVerb : Option String
  encounterAdjective : Option String
  encounterThreat : Option Int
  encounterDifficulty : Option Int
  encounterLength : Option Int
  isPrepTurn : Bool
  currentPrepWordIndex : Int
  currentPrepWordTurnCount : Int
  vowels : List String
  currentTurn : Int
  isActive : Bool
deriving DecidableEq

/-- A row of the `words` table (`createdAt`/`updatedAt` omitted). -/
structure Word where
  id : Nat
  sessionId : Nat
  word : String
  meaning : String
  category : String
  potency : Option Int
  isApproved : Bool
deriving DecidableEq

/-- The mutable state of `MemStorage`: the `sessions`, `sessionPlayers`,
`words` and `wordOwners` maps (as insertion-ordered association lists) and
the word id counter.  `sessionPlayers` is keyed by the template string
`sessionId-userId`, i.e. by the pair `(sessionId, userId)`. -/
structure Storage where
  sessions : List GameSession
  sessionPlayers : List SessionPlayer
  words : List Word
  wordOwners : List (Nat × List String)
  wordCounter : Nat
deriving DecidableEq

/-- The key predicate for the `sessionId-userId` map key. -/
def playerKeyEq (p : SessionPlayer) (sid : Nat) (uid : String) : Bool :=
  p.sessionId == sid && p.userId == uid

/-- `MemStorage.getGameSession`. -/
def getGameSession (st : Storage) (sid : Nat) : Option GameSession :=
  st.sessions.find? (fun s => s.id == sid)

/-- `MemStorage.getPlayerInSession`: lookup at key `sessionId-userId`. -/
def getPlayerInSession (st : Storage) (sid : Nat) (uid : String) :
    Option SessionPlayer :=
  st.sessionPlayers.find? (fun p => playerKeyEq p sid uid)

/-- The payload of `storage.joinSession` (`InsertSessionPlayer`), with the
injected join timestamp (`new Date()`). -/
structure InsertSessionPlayer where
  sessionId : Nat
  userId : String
  playerName : Option String
  nerve : Option Int
  maxNerve : Option Int
  turnOrder : Option Int
  isActive : Option Bool
  isActiveTurn : Option Bool
  joinedAt : Int

/-- The player record built by `MemStorage.joinSession`:
`nerve: player.nerve || 8`, `maxNerve: player.maxNerve || 8`,
`turnOrder: player.turnOrder || null`, `isActive: player.isActive ?? true`,
`isActiveTurn: player.isActiveTurn ?? false`, `playerName: player.playerName || null`. -/
def mkJoinedPlayer (p : InsertSessionPlayer) : SessionPlayer :=
  { sessionId := p.sessionId
    userId := p.userId
    playerName := strOrNull p.playerName
    nerve := jsOrN p.nerve 8
    maxNerve := jsOrN p.maxNerve 8
    turnOrder := jsOrNull p.turnOrder
    isActive := p.isActive.getD true
    isActiveTurn := p.isActiveTurn.getD false
    joinedAt := p.joinedAt }

/-- `Map.set` on the players map: replace the entry at the key, else append. -/
def playersMapSet (l : List SessionPlayer) (q : SessionPlayer) :
    List SessionPlayer :=
  if l.any (fun p => playerKeyEq p q.sessionId q.userId) then
    l.map (fun p => if playerKeyEq p q.sessionId q.userId then q else p)
  else l ++ [q]

/-- `MemStorage.joinSession`. -/
def joinSession (st : Storage) (p : InsertSessionPlayer) :
    Storage × SessionPlayer :=
  let np := mkJoinedPlayer p
  ({ st with sessionPlayers := playersMapSet st.sessionPlayers np }, np)

/-- The clear loop shared by `setActiveTurn`, `advanceToNextPlayer` and
`resetTurnsForNewEncounter`: reset `isActiveTurn` on every player of the
session. -/
def clearActiveTurns (l : List SessionPlayer) (sid : Nat) :
    List SessionPlayer :=
  l.map (fun p => if p.sessionId == sid then { p with isActiveTurn := false } else p)

/-- The set step of `setActiveTurn`: set `isActiveTurn` on the player stored
at key `sessionId-userId` (a no-op when the key is absent). -/
def setKeyActiveTurn (l : List SessionPlayer) (sid : Nat) (uid : String) :
    List SessionPlayer :=
  l.map (fun p => if playerKeyEq p sid uid then { p with isActiveTurn := true } else p)

/-- `MemStorage.setActiveTurn`: clear all `isActiveTurn` flags of the session,
then set the flag of the given player. -/
def setActiveTurn (st : Storage) (sid : Nat) (uid : String) : Storage :=
  { st with sessionPlayers := setKeyActiveTurn (clearActiveTurns st.sessionPlayers sid) sid uid }

/-- Update the session stored at `sid` (a no-op when absent), as the in-place
mutations of the session object fetched from the map do. -/
def updateSession (st : Storage) (sid : Nat) (f : GameSession → GameSession) :
    Storage :=
  { st with sessions := st.sessions.map (fun s => if s.id == sid then f s else s) }

/-- Stable insertion of `a` after every element `b` with `le b a`
(i.e. comparator `cmp b a ≤ 0`). -/
def stableInsert (le : α → α → Bool) : List α → α → List α
  | [], a => [a]
  | b :: bs, a => if le b a then b :: stableInsert le bs a else a :: b :: bs

/-- Stable sort: the unique output of JavaScript's (stable) `Array.sort`
for a consistent comparator `cmp`, taking `le a b := cmp a b ≤ 0`. -/
def stableSort (le : α → α → Bool) (l : List α) : List α :=
  l.foldl (stableInsert le) []

/-- The comparator `(a, b) => (a.turnOrder || 0) - (b.turnOrder || 0)`. -/
def turnOrderCmp (a b : SessionPlayer) : Int :=
  jsOrN a.turnOrder 0 - jsOrN b.turnOrder 0

/-- The comparator of `MemStorage.recalculateTurnOrder`: nerve descending
(`(b.nerve || 0) - (a.nerve || 0)`), ties by join time ascending
(`(a.joinedAt?.getTime() || 0) - (b.joinedAt?.getTime() || 0)`). -/
def nerveJoinCmp (a b : SessionPlayer) : Int :=
  if jsOr b.nerve 0 ≠ jsOr a.nerve 0 then jsOr b.nerve 0 - jsOr a.nerve 0
  else jsOr a.joinedAt 0 - jsOr b.joinedAt 0

/-- `MemStorage.getSessionPlayers`: active players of the session, sorted by
`(a.turnOrder || 0) - (b.turnOrder || 0)`. -/
def getSessionPlayers (st : Storage) (sid : Nat) : List SessionPlayer :=
  stableSort (fun a b => turnOrderCmp a b ≤ 0)
    (st.sessionPlayers.filter (fun p => p.sessionId == sid && p.isActive))

/-- The player list used by `MemStorage.advanceToNextPlayer`: every player of
the session (the `isActive` flag is not consulted there), sorted by turn
order. -/
def sessionPlayersAll (st : Storage) (sid : Nat) : List SessionPlayer :=
  stableSort (fun a b => turnOrderCmp a b ≤ 0)
    (st.sessionPlayers.filter (fun p => p.sessionId == sid))

/-- The current-active-player index computation of
`MemStorage.advanceToNextPlayer`: the `findIndex` of the player found by
`find(p => p.isActiveTurn)`, or `-1` when no player is active. -/
def advanceCurrentIndex (players : List SessionPlayer) : Int :=
  match players.find? (fun p => p.isActiveTurn) with
  | some cap => (players.findIdx (fun p => p.userId == cap.userId) : Int)
  | none => -1

/-- `MemStorage.advanceToNextPlayer`.  `none` models the thrown
`Session not found` / `No players in session` errors (no state is mutated
before either throw).  On success it returns the new storage together with
`{ nextPlayerId, turnIncremented }`. -/
def advanceToNextPlayer (st : Storage) (sid : Nat) :
    Option (Storage × String × Bool) :=
  match getGameSession st sid with
  | none => none
  | some _ =>
    let players := sessionPlayersAll st sid
    if players.length = 0 then none
    else
      let currentIndex : Int := advanceCurrentIndex players
      let wrapped : Bool := currentIndex + 1 ≥ (players.length : Int)
      let nextIndex : Nat := if wrapped then 0 else (currentIndex + 1).toNat
      let st1 :=
        if wrapped then
          updateSession st sid (fun s => { s with currentTurn := jsOr s.currentTurn 1 + 1 })
        else st
      match players.get? nextIndex with
      | none => none
      | some nextPlayer =>
        some ({ st1 with
                  sessionPlayers :=
                    setKeyActiveTurn (clearActiveTurns st1.sessionPlayers sid) sid
                      nextPlayer.userId },
              nextPlayer.userId, wrapped)

/-- `MemStorage.resetTurnsForNewEncounter`: reset `currentTurn` to 1 and clear
all `isActiveTurn` flags of the session. -/
def resetTurnsForNewEncounter (st : Storage) (sid : Nat) : Storage :=
  let st1 := updateSession st sid (fun s => { s with currentTurn := 1 })
  { st1 with sessionPlayers := clearActiveTurns st1.sessionPlayers sid }

/-- One write of the `forEach` loop of `recalculateTurnOrder`: store turn
order `idx` on the player at key `sessionId-userId`. -/
def writeTurnOrder (st : Storage) (sid : Nat) (uid : String) (idx : Int) :
    Storage :=
  { st with
      sessionPlayers :=
        st.sessionPlayers.map
          (fun q => if playerKeyEq q sid uid then { q with turnOrder := some idx } else q) }

/-- The `forEach((player, index) => ...)` assignment loop of
`recalculateTurnOrder`, with `k` the index of the first element of `l`. -/
def assignTurnOrdersFrom (sid : Nat) : Nat → List SessionPlayer → Storage → Storage
  | _, [], st => st
  | k, p :: l, st => assignTurnOrdersFrom sid (k + 1) l (writeTurnOrder st sid p.userId (k : Int))

/-- `MemStorage.recalculateTurnOrder`: sort the session's players by nerve
descending / join time ascending and assign dense 0-based turn orders. -/
def recalculateTurnOrder (st : Storage) (sid : Nat) : Storage :=
  let players := st.sessionPlayers.filter (fun p => p.sessionId == sid)
  let sortedPlayers := stableSort (fun a b => nerveJoinCmp a b ≤ 0) players
  assignTurnOrdersFrom sid 0 sortedPlayers st

/-- `MemStorage.updatePlayerNerve`. -/
def updatePlayerNerve (st : Storage) (sid : Nat) (uid : String) (nerve : Int) :
    Storage :=
  { st with
      sessionPlayers :=
        st.sessionPlayers.map
          (fun p => if playerKeyEq p sid uid then { p with nerve := nerve } else p) }

/-- The payload of `storage.createWord` (`InsertWord`). -/
structure InsertWord where
  sessionId : Nat
  word : String
  meaning : String
  category : Option String
  potency : Option Int
  isApproved : Option Bool

/-- `MemStorage.createWord`: builds the row with
`category: word.category || "noun"`, `potency: word.potency || null`,
`isApproved: word.isApproved || false`, stores it under the next counter id,
and initializes an empty owners set for it. -/
def createWord (st : Storage) (w : InsertWord) : Storage × Word :=
  let newWord : Word :=
    { id := st.wordCounter
      sessionId := w.sessionId
      word := w.word
      meaning := w.meaning
      category := strOr w.category "noun"
      potency := jsOrNull w.potency
      isApproved := w.isApproved.getD false }
  ({ st with
      words := st.words ++ [newWord]
      wordOwners := st.wordOwners ++ [(newWord.id, [])]
      wordCounter := st.wordCounter + 1 },
   newWord)

/-- `MemStorage.approveWord`: set potency and `isApproved` on the word;
`none` models the thrown `Word not found`. -/
def approveWord (st : Storage) (wordId : Nat) (potency : Int) :
    Option (Storage × Word) :=
  match st.words.find? (fun w => w.id == wordId) with
  | none => none
  | some w =>
    let w' := { w with potency := some potency, isApproved := true }
    some ({ st with words := st.words.map (fun v => if v.id == wordId then w' else v) }, w')

/-- `MemStorage.getPendingWords`: the session's words with `potency === null`. -/
def getPendingWords (st : Storage) (sid : Nat) : List Word :=
  st.words.filter (fun w => w.sessionId == sid && w.potency == none)

/-- `MemStorage.deleteWord`: delete the word row and its owners entry. -/
def deleteWord (st : Storage) (wordId : Nat) : Storage :=
  { st with
      words := st.words.filter (fun w => !(w.id == wordId))
      wordOwners := st.wordOwners.filter (fun e => !(e.1 == wordId)) }

/-- `MemStorage.addWordOwner`: add the owner to the word's owner `Set`
(insertion-ordered, no duplicates), creating the entry when absent. -/
def addWordOwner (st : Storage) (wordId : Nat) (ownerId : String) : Storage :=
  if st.wordOwners.any (fun e => e.1 == wordId) then
    { st with
        wordOwners :=
          st.wordOwners.map
            (fun e =>
              if e.1 == wordId then
                (e.1, if ownerId ∈ e.2 then e.2 else e.2 ++ [ownerId])
              else e) }
  else { st with wordOwners := st.wordOwners ++ [(wordId, [ownerId])] }

/-- `MemStorage.getWordOwners`: `Array.from` of the owners set (empty when
the entry is absent). -/
def getWordOwners (st : Storage) (wordId : Nat) : List String :=
  match st.wordOwners.find? (fun e => e.1 == wordId) with
  | some e => e.2
  | none => []

/-- `MemStorage.findWordByText`. -/
def findWordByText (st : Storage) (sid : Nat) (text : String) : Option Word :=
  st.words.find? (fun w => w.sessionId == sid && w.word == text)

/-- The `encounterData` argument of `storage.updateEncounter`; `none` models
an omitted (`undefined`) field, which `updateEncounter` leaves unchanged. -/
structure EncounterData where
  sentence : String
  threat : Option Int
  difficulty : Option Int
  encLength : Option Int
  noun : Option String
  verb : Option String
  adjective : Option String
  isPrepTurn : Option Bool
  currentPrepWordIndex : Option Int
  currentPrepWordTurnCount : Option Int

/-- `MemStorage.updateEncounter`: write `sentence` unconditionally and every
defined optional field. -/
def updateEncounter (st : Storage) (sid : Nat) (d : EncounterData) : Storage :=
  updateSession st sid (fun s =>
    { s with
        encounterSentence := some d.sentence
        encounterThreat := match d.threat with | some v => some v | none => s.encounterThreat
        encounterDifficulty := match d.difficulty with | some v => some v | none => s.encounterDifficulty
        encounterLength := match d.encLength with | some v => some v | none => s.encounterLength
        encounterNoun := match d.noun with | some v => some v | none => s.encounterNoun
        encounterVerb := match d.verb with | some v => some v | none => s.encounterVerb
        encounterAdjective := match d.adjective with | some v => some v | none => s.encounterAdjective
        isPrepTurn := match d.isPrepTurn with | some v => v | none => s.isPrepTurn
        currentPrepWordIndex := match d.currentPrepWordIndex with | some v => v | none => s.currentPrepWordIndex
        currentPrepWordTurnCount := match d.currentPrepWordTurnCount with | some v => v | none => s.currentPrepWordTurnCount })

/-- Clamp an encounter stat to `[1, 10]`: `Math.max(1, Math.min(10, x))`. -/
def clampStat (x : Int) : Int := max 1 (min 10 x)

/-- `generateWordFromVowels` (client, `WordDictionary.tsx`), with the die
results injected as a stream `dice` (the source draws each with
`Math.floor(Math.random() * 6) + 1`): roll one d6, divide by 2 rounding up to
get the dice count, roll that many d6, and map each result (1-indexed) to the
corresponding vowel, concatenating in roll order.  (For an in-range roll `r`
and six vowels, `vowels[r - 1]` is total; out-of-range indexing, which the
claims exclude, is modelled by the empty-string default.) -/
def generateWordFromVowels (vowels : List String) (dice : Nat → Nat) :
    String × List Nat :=
  let initialRoll := dice 0
  let numDice := (initialRoll + 1) / 2
  let rolls := (List.range numDice).map (fun i => dice (i + 1))
  (String.join (rolls.map (fun roll => (vowels.get? (roll - 1)).getD "")), rolls)

/-- The nerve adjustment applied per owner by the approve-word route:
positive potency reduces nerve with floor 1, negative potency increases nerve
with ceiling 8 (`Math.min(8, newNerve + Math.abs(potency))`), zero leaves it
unchanged. -/
def adjustNerve (potency : Int) (n : Int) : Int :=
  if potency > 0 then max 1 (n - potency)
  else if potency < 0 then min 8 (n + |potency|)
  else n

/-- The per-owner body of the approval loop: look the owner up in the session
and, when present, write the adjusted nerve (`player.nerve || 0` as base). -/
def approveOwnerStep (sid : Nat) (potency : Int) (st : Storage) (ownerId : String) :
    Storage :=
  match getPlayerInSession st sid ownerId with
  | some player => updatePlayerNerve st sid ownerId (adjustNerve potency (jsOr player.nerve 0))
  | none => st

/-- `POST /api/sessions/:id/words/:wordId/approve`: validate the potency range,
check the caller is the GM, approve the word, then adjust every owner's nerve.
Errors carry the route's response message. -/
def approveWordRoute (st : Storage) (sid : Nat) (wordId : Nat) (userId : String)
    (potency : Int) : Except String (Storage × Word) :=
  if userId = "" then .error "User ID and potency are required"
  else if ¬(-2 ≤ potency ∧ potency ≤ 2) then
    .error "Potency must be between -2 and 2 (whole numbers only)"
  else
    match getGameSession st sid with
    | none => .error "Session not found"
    | some session =>
      if session.gmId ≠ userId then .error "Only the Game Master can approve words"
      else
        match approveWord st wordId potency with
        | none => .error "Failed to approve word"
        | some (st1, approvedWord) =>
          let owners := getWordOwners st1 wordId
          .ok (owners.foldl (approveOwnerStep sid potency) st1, approvedWord)

/-- `POST /api/sessions/:sessionId/words` (player word creation): when the
text already exists in the session, add the submitter as an owner and return
the existing word with `isExisting = true`; otherwise require a meaning and
create a new pending word with the submitter as first owner. -/
def createWordRoute (st : Storage) (sid : Nat) (wordText : String)
    (meaning : Option String) (userId : String) (category : Option String) :
    Except String (Storage × Word × Bool) :=
  if wordText = "" ∨ userId = "" then .error "Word and userId are required"
  else
    match findWordByText st sid wordText with
    | some existingWord => .ok (addWordOwner st existingWord.id userId, existingWord, true)
    | none =>
      match strOrNull meaning with
      | none => .error "Meaning is required for new words"
      | some m =>
        let (st1, newWord) :=
          createWord st
            { sessionId := sid, word := wordText, meaning := m,
              category := some (strOr category "noun"), potency := none,
              isApproved := some false }
        .ok (addWordOwner st1 newWord.id userId, newWord, false)

/-- The pure counter transition of `POST /api/sessions/:id/prep/next-word`:
increment the per-word turn count; at the player count move to the next word;
at word index 3 leave the prep phase.  Returns the stored
`(currentPrepWordTurnCount, currentPrepWordIndex, isPrepTurn)`. -/
def prepCounterStep (numPlayers : Nat) (c i : Int) : Int × Int × Bool :=
  let c1 := c + 1
  let (c2, i1) := if c1 ≥ (numPlayers : Int) then ((0 : Int), i + 1) else (c1, i)
  if i1 ≥ 3 then (c2, 0, false) else (c2, i1, true)

/-- `POST /api/sessions/:id/prep/next-word`: advance the prep-phase state
machine, then either rotate the active player (still in prep) or activate the
player at turn order 0 (prep over).  Returns the response fields
`(currentPrepWordIndex, isPrepTurn, currentPrepWordTurnCount)`. -/
def prepNextWordRoute (st : Storage) (sid : Nat) (userId : String) :
    Except String (Storage × Int × Bool × Int) :=
  if userId = "" then .error "Missing required fields"
  else
    match getGameSession st sid with
    | none => .error "Session not found"
    | some session =>
      let players := getSessionPlayers st sid
      let numPlayers := players.length
      if numPlayers = 0 then .error "No players in session"
      else
        let (c2, i2, prep) :=
          prepCounterStep numPlayers (jsOr session.currentPrepWordTurnCount 0)
            (jsOr session.currentPrepWordIndex 0)
        let st1 :=
          updateEncounter st sid
            { sentence := strOr session.encounterSentence "",
              threat := none, difficulty := none, encLength := none,
              noun := none, verb := none, adjective := none,
              isPrepTurn := some prep, currentPrepWordIndex := some i2,
              currentPrepWordTurnCount := some c2 }
        if prep then
          match advanceToNextPlayer st1 sid with
          | none => .error "Internal server error"
          | some (st2, _, _) => .ok (st2, i2, prep, c2)
        else
          let players2 := getSessionPlayers st1 sid
          let st2 :=
            match players2.find? (fun p => p.turnOrder == some 0) with
            | some firstPlayer => setActiveTurn st1 sid firstPlayer.userId
            | none => st1
          .ok (st2, i2, prep, c2)

/-- The current encounter word of the prep phase, selected by
`currentPrepWordIndex` (`0` noun, `1` verb, `2` adjective, anything else
`null`), together with its grammatical category. -/
def currentPrepWord (session : GameSession) : Option String × String :=
  if session.currentPrepWordIndex = 0 then (session.encounterNoun, "noun")
  else if session.currentPrepWordIndex = 1 then (session.encounterVerb, "verb")
  else if session.currentPrepWordIndex = 2 then (session.encounterAdjective, "adjective")
  else (none, "noun")

/-- `POST /api/sessions/:id/prep/modify-stats`: refuse (with the
potency-not-set message) unless the current encounter word is in the
dictionary with a set potency; otherwise add that potency to all three
encounter stats, re-clamped to `[1, 10]`.  Returns
`(threat, difficulty, length, potency)`. -/
def modifyStatsRoute (st : Storage) (sid : Nat) (userId : String) :
    Except String (Storage × Int × Int × Int × Int) :=
  if userId = "" then .error "Missing required fields"
  else
    match getGameSession st sid with
    | none => .error "Session not found"
    | some session =>
      match strOrNull (currentPrepWord session).1 with
      | none => .error "No current word to modify stats for"
      | some currentWord =>
        match findWordByText st sid currentWord with
        | none => .error "Current word not found in dictionary"
        | some wordInDictionary =>
          match wordInDictionary.potency with
          | none => .error "GM must set potency for the current word before stats can be modified"
          | some potency =>
            let newThreat := clampStat (jsOrN session.encounterThreat 1 + potency)
            let newDifficulty := clampStat (jsOrN session.encounterDifficulty 1 + potency)
            let newLength := clampStat (jsOrN session.encounterLength 1 + potency)
            let st1 :=
              updateEncounter st sid
                { sentence := strOr session.encounterSentence "",
                  threat := some newThreat, difficulty := some newDifficulty,
                  encLength := some newLength,
                  noun := none, verb := none, adjective := none,
                  isPrepTurn := none, currentPrepWordIndex := none,
                  currentPrepWordTurnCount := none }
            .ok (st1, newThreat, newDifficulty, newLength, potency)

/-- `POST /api/sessions/:id/prep/adjust-encounter-stat`: ensure the current
encounter word is in the dictionary (creating it, approved, from the supplied
meaning/potency when absent), make the GM an owner, and add the word's potency
(`wordInDictionary.potency || 0` — a null potency is NOT rejected here) to the
selected stat, re-clamped to `[1, 10]`.  Returns
`(adjustment, threat, difficulty, length)`. -/
def adjustEncounterStatRoute (st : Storage) (sid : Nat) (stat : String)
    (userId : String) (meaning : Option String) (potency : Option Int) :
    Except String (Storage × Int × Int × Int × Int) :=
  if stat = "" ∨ userId = "" then .error "Missing required fields"
  else
    match getGameSession st sid with
    | none => .error "Session not found"
    | some session =>
      match strOrNull (currentPrepWord session).1 with
      | none => .error "No current word to adjust"
      | some currentWord =>
        let found :=
          match findWordByText st sid currentWord with
          | some w => some (st, w)
          | none =>
            match strOrNull meaning, potency with
            | some m, some pv =>
              some (createWord st
                { sessionId := sid, word := currentWord, meaning := m,
                  category := some (currentPrepWord session).2,
                  potency := some pv, isApproved := some true })
            | _, _ => none
        match found with
        | none => .error "Missing meaning or potency for new word"
        | some (st1, wordInDictionary) =>
          let st2 :=
            if session.gmId = "" then st1
            else addWordOwner st1 wordInDictionary.id session.gmId
          let adjustment := jsOrN wordInDictionary.potency 0
          let t0 := jsOrN session.encounterThreat 1
          let d0 := jsOrN session.encounterDifficulty 1
          let l0 := jsOrN session.encounterLength 1
          let stats :=
            if stat = "threat" then some (clampStat (t0 + adjustment), d0, l0)
            else if stat = "difficulty" then some (t0, clampStat (d0 + adjustment), l0)
            else if stat = "length" then some (t0, d0, clampStat (l0 + adjustment))
            else none
          match stats with
          | none => .error "Invalid stat to adjust"
          | some (newThreat, newDifficulty, newLength) =>
            let st3 :=
              updateEncounter st2 sid
                { sentence := strOr session.encounterSentence "",
                  threat := some newThreat, difficulty := some newDifficulty,
                  encLength := some newLength,
                  noun := none, verb := none, adjective := none,
                  isPrepTurn := none, currentPrepWordIndex := none,
                  currentPrepWordTurnCount := none }
            .ok (st3, adjustment, newThreat, newDifficulty, newLength)

/-- Insertion of one GM-generated encounter word (the `if (noun) {...}`
blocks of the new-encounter branch of `PATCH /api/sessions/:id/encounter`):
skipped for a missing or empty word, otherwise created pre-approved with a
null potency. -/
def insertEncounterWord (st : Storage) (sid : Nat) (w : Option String)
    (meaning category : String) : Storage :=
  match strOrNull w with
  | none => st
  | some txt =>
    (createWord st
      { sessionId := sid, word := txt, meaning := meaning,
        category := some category, isApproved := some true, potency := none }).1

/-- The state of the new-encounter branch of `PATCH /api/sessions/:id/encounter`
just before its pending-word cleanup: reset turns, insert the three encounter
words (pre-approved, potency null), start the prep phase, recalculate the turn
order and activate the player at turn order 0. -/
def newEncounterSetup (st : Storage) (sid : Nat) (sentence : Option String)
    (threatNum difficultyNum lengthNum : Option Int)
    (noun verb adjective : Option String) : Storage :=
  let st1 := resetTurnsForNewEncounter st sid
  let st2 := insertEncounterWord st1 sid noun "GM generated encounter noun" "noun"
  let st3 := insertEncounterWord st2 sid verb "GM generated encounter verb" "verb"
  let st4 := insertEncounterWord st3 sid adjective "GM generated encounter adjective" "adjective"
  let st5 :=
    updateEncounter st4 sid
      { sentence := strOr sentence "",
        threat := some (jsOrN threatNum 1), difficulty := some (jsOrN difficultyNum 1),
        encLength := some (jsOrN lengthNum 1),
        noun := noun, verb := verb, adjective := adjective,
        isPrepTurn := some true, currentPrepWordIndex := some 0,
        currentPrepWordTurnCount := none }
  let st6 := recalculateTurnOrder st5 sid
  match (getSessionPlayers st6 sid).find? (fun p => p.turnOrder == some 0) with
  | some firstPlayer => setActiveTurn st6 sid firstPlayer.userId
  | none => st6

/-- The pending-word cleanup loop of the new-encounter branch: delete every
word returned by `getPendingWords`. -/
def encounterCleanup (st : Storage) (sid : Nat) : Storage :=
  (getPendingWords st sid).foldl (fun acc w => deleteWord acc w.id) st

/-- The complete new-encounter branch (`isNewEncounter = true`) of
`PATCH /api/sessions/:id/encounter`. -/
def newEncounterBranch (st : Storage) (sid : Nat) (sentence : Option String)
    (threatNum difficultyNum lengthNum : Option Int)
    (noun verb adjective : Option String) : Storage :=
  encounterCleanup
    (newEncounterSetup st sid sentence threatNum difficultyNum lengthNum noun verb adjective)
    sid

/-! ### C8: dice-based word generation -/

/-- C8.  For every ordered list of exactly 6 vowel strings and every die
stream with results in `[1, 6]`, word generation computes the dice count
`N = ceil(first roll / 2) ∈ [1, 3]`, consumes the next `N` die results, maps
each result `r` to `vowels[r - 1]`, and concatenates them in roll order; in
particular, for vowels `["a","e","i","o","u","y"]` and die sequence `[2, 4]`
(first roll 2 gives `N = 1`, data die 4) the produced word is `"o"`. -/
theorem c8_word_generation (vowels : List String) (dice : Nat → Nat)
    (hv : vowels.length = 6) (hd : ∀ i, 1 ≤ dice i ∧ dice i ≤ 6) :
    1 ≤ (dice 0 + 1) / 2 ∧ (dice 0 + 1) / 2 ≤ 3 ∧
    (generateWordFromVowels vowels dice).2 =
      (List.range ((dice 0 + 1) / 2)).map (fun i => dice (i + 1)) ∧
    (∀ r ∈ (generateWordFromVowels vowels dice).2, 1 ≤ r ∧ r - 1 < vowels.length) ∧
    (generateWordFromVowels vowels dice).1 =
      String.join ((generateWordFromVowels vowels dice).2.map
        (fun r => vowels.getD (r - 1) "")) ∧
    (vowels = ["a", "e", "i", "o", "u", "y"] → dice 0 = 2 → dice 1 = 4 →
      (generateWordFromVowels vowels dice).1 = "o") := by
  obtain ⟨h1, h6⟩ := hd 0
  refine ⟨by omega, by omega, rfl, ?_, ?_, ?_⟩
  · intro r hr
    simp only [generateWordFromVowels, List.mem_map, List.mem_range] at hr
    obtain ⟨i, -, rfl⟩ := hr
    have := hd (i + 1)
    omega
  · simp [generateWordFromVowels, List.getD]
  · intro hvs h0 hone
    simp [generateWordFromVowels, h0, hone, hvs, String.join, List.range_succ]

/-- C8 witness: the theorem applied to the concrete vowels
`["a","e","i","o","u","y"]` and die sequence `2, 4, 1, 1, ...`, yielding the
word `"o"`. -/
theorem c8_word_generation_witness :
    (["a", "e", "i", "o", "u", "y"] : List String).length = 6 ∧
    (generateWordFromVowels ["a", "e", "i", "o", "u", "y"]
      (fun n => if n = 0 then 2 else if n = 1 then 4 else 1)).1 = "o" := by
  have hd : ∀ i, 1 ≤ (fun n => if n = 0 then 2 else if n = 1 then 4 else 1) i ∧
      (fun n => if n = 0 then 2 else if n = 1 then 4 else 1) i ≤ 6 := by
    intro i; dsimp only; split <;> [omega; split <;> omega]
  exact ⟨rfl,
    (c8_word_generation ["a", "e", "i", "o", "u", "y"]
        (fun n => if n = 0 then 2 else if n = 1 then 4 else 1) rfl hd).2.2.2.2.2
      rfl rfl rfl⟩

/-! ### C9: zero potency is stored as null -/

/-- C9.  `createWord` coerces a zero input potency to `null`
(`potency: word.potency || null`): the stored word's potency is `none`, and
the created word and resulting storage are identical to those of the same
request with a `null` potency — a word created with potency 0 is
indistinguishable from a pending word. -/
theorem c9_createWord_zero_potency (st : Storage) (iw : InsertWord) :
    (createWord st { iw with potency := some 0 }).2.potency = none ∧
    createWord st { iw with potency := some 0 } =
      createWord st { iw with potency := none } := by
  constructor <;> simp [createWord, jsOrNull]

/-! ### Generic list/lookup helpers -/

/-- `find?` over a pointwise rewrite that does not change the predicate's
verdict commutes with the rewrite. -/
theorem find?_map_pred {α : Type} (g : α → α) (p : α → Bool) (l : List α)
    (hp : ∀ x, p (g x) = p x) : (l.map g).find? p = (l.find? p).map g := by
  induction l with
  | nil => rfl
  | cons a l ih =>
    by_cases ha : p a
    · simp [List.find?_cons, hp a, ha]
    · simp only [List.map_cons, List.find?_cons, hp a,
        Bool.not_eq_true] at *
      simp [ha, ih]

/-- `filter` over a pointwise rewrite that does not change the predicate's
verdict commutes with the rewrite. -/
theorem filter_map_pred {α : Type} (g : α → α) (p : α → Bool) (l : List α)
    (hp : ∀ x, p (g x) = p x) : (l.map g).filter p = (l.filter p).map g := by
  induction l with
  | nil => rfl
  | cons a l ih =>
    by_cases ha : p a <;>
      simp [List.filter_cons, hp a, ha, ih]

/-! ### C3: resubmitting an existing word text -/

/-- `addWordOwner` leaves the `words` map and the word counter untouched. -/
theorem addWordOwner_words (st : Storage) (wordId : Nat) (o : String) :
    (addWordOwner st wordId o).words = st.words ∧
    (addWordOwner st wordId o).wordCounter = st.wordCounter := by
  unfold addWordOwner; split <;> exact ⟨rfl, rfl⟩

/-- The owners set of the word after `addWordOwner`: unchanged when the owner
is already present, extended by the owner (at the end) otherwise. -/
theorem getWordOwners_addWordOwner_self (st : Storage) (wordId : Nat) (o : String) :
    getWordOwners (addWordOwner st wordId o) wordId =
      if o ∈ getWordOwners st wordId then getWordOwners st wordId
      else getWordOwners st wordId ++ [o] := by
  unfold addWordOwner getWordOwners
  by_cases hany : st.wordOwners.any (fun e => e.1 == wordId)
  · simp only [hany, if_true]
    rw [find?_map_pred (p := fun e => e.1 == wordId)
        (g := fun e => if e.1 == wordId then (e.1, if o ∈ e.2 then e.2 else e.2 ++ [o]) else e)
        _ (by intro x; by_cases hx : x.1 == wordId <;> simp [hx])]
    obtain ⟨e0, he0m, he0p⟩ := List.any_eq_true.mp hany
    have hsome : (st.wordOwners.find? (fun e => e.1 == wordId)).isSome := by
      rw [List.find?_isSome]; exact ⟨e0, he0m, he0p⟩
    obtain ⟨e1, he1⟩ := Option.isSome_iff_exists.mp hsome
    have hp : (e1.1 == wordId) = true :=
      List.find?_some (p := fun (e : Nat × List String) => e.1 == wordId) he1
    simp only [he1, Option.map_some', hp, if_true]
  · have hfalse : st.wordOwners.any (fun e => e.1 == wordId) = false := by
      simp only [Bool.not_eq_true] at hany; exact hany
    simp only [hfalse, Bool.false_eq_true, if_false]
    have hnone : st.wordOwners.find? (fun e => e.1 == wordId) = none := by
      rw [List.find?_eq_none]
      intro x hx
      have := List.any_eq_false.mp hfalse x hx
      simpa using this
    rw [List.find?_append, hnone]
    simp [hnone]

/-- C3.  For every session and every `createWord` request whose text equals
the text of a word already present in that session: the route takes the
existing-word branch (`isExisting = true`), no new word row is created (the
`words` map and the id counter are unchanged), and the word's owner set is
unchanged when the submitter was already an owner and grows by exactly that
one submitter otherwise. -/
theorem c3_resubmit_existing_word (st : Storage) (sid : Nat) (text uid : String)
    (meaning category : Option String) (w : Word)
    (htext : text ≠ "") (huid : uid ≠ "")
    (hfind : findWordByText st sid text = some w) :
    ∃ st', createWordRoute st sid text meaning uid category = .ok (st', w, true) ∧
      st'.words = st.words ∧ st'.wordCounter = st.wordCounter ∧
      (uid ∈ getWordOwners st w.id →
        getWordOwners st' w.id = getWordOwners st w.id) ∧
      (uid ∉ getWordOwners st w.id →
        getWordOwners st' w.id = getWordOwners st w.id ++ [uid]) := by
  refine ⟨addWordOwner st w.id uid, ?_, (addWordOwner_words st w.id uid).1,
    (addWordOwner_words st w.id uid).2, ?_, ?_⟩
  · unfold createWordRoute
    simp [htext, huid, hfind]
  · intro hmem
    rw [getWordOwners_addWordOwner_self]
    simp [hmem]
  · intro hmem
    rw [getWordOwners_addWordOwner_self]
    simp [hmem]

/-- C3 witness: a concrete session holding the word `"Ba"` (id 1) owned by
`"p1"`; resubmission of `"Ba"` by `"p2"` leaves the word rows unchanged and
extends the owners to `["p1", "p2"]`. -/
theorem c3_resubmit_existing_word_witness :
    letI w : Word :=
      { id := 1, sessionId := 1, word := "Ba", meaning := "m",
        category := "noun", potency := none, isApproved := false }
    letI st : Storage :=
      { sessions := [], sessionPlayers := [], words := [w],
        wordOwners := [(1, ["p1"])], wordCounter := 2 }
    ("Ba" : String) ≠ "" ∧ ("p2" : String) ≠ "" ∧
      findWordByText st 1 "Ba" = some w ∧
      ∃ st', createWordRoute st 1 "Ba" none "p2" none = .ok (st', w, true) ∧
        st'.words = st.words ∧ st'.wordCounter = st.wordCounter ∧
        (("p2" : String) ∈ getWordOwners st w.id →
          getWordOwners st' w.id = getWordOwners st w.id) ∧
        (("p2" : String) ∉ getWordOwners st w.id →
          getWordOwners st' w.id = getWordOwners st w.id ++ ["p2"]) := by
  exact ⟨by decide, by decide, by decide,
    c3_resubmit_existing_word _ 1 "Ba" "p2" none none _
      (by decide) (by decide) (by decide)⟩

/-! ### C2: word approval and owner nerve adjustment -/

/-- `x || 0` is the identity on numbers. -/
theorem jsOr_zero (x : Int) : jsOr x 0 = x := by
  unfold jsOr; split <;> omega

/-- The `ok` payload of a route result. -/
def routeOk {ε α : Type} : Except ε α → Option α
  | .ok a => some a
  | .error _ => none

/-- Player lookup after `updatePlayerNerve`: the written player's record gets
the new nerve, every other key is untouched. -/
theorem getPlayerInSession_updatePlayerNerve (st : Storage) (sid : Nat)
    (u' u : String) (v : Int) :
    getPlayerInSession (updatePlayerNerve st sid u' v) sid u =
      if u' = u then
        (getPlayerInSession st sid u).map (fun p => { p with nerve := v })
      else getPlayerInSession st sid u := by
  unfold getPlayerInSession updatePlayerNerve
  rw [find?_map_pred (p := fun p => playerKeyEq p sid u)
        (g := fun p => if playerKeyEq p sid u' then { p with nerve := v } else p)
        _ (by
          intro x
          dsimp only
          by_cases hx : playerKeyEq x sid u' = true
          · rw [if_pos hx]; simp [playerKeyEq]
          · rw [if_neg hx])]
  by_cases he : u' = u
  · subst he
    simp only [if_true]
    cases hfind : st.sessionPlayers.find? (fun p => playerKeyEq p sid u') with
    | none => rfl
    | some p0 =>
      have hp := List.find?_some (p := fun p => playerKeyEq p sid u') hfind
      simp [hp]
  · simp only [he, if_false]
    cases hfind : st.sessionPlayers.find? (fun p => playerKeyEq p sid u) with
    | none => rfl
    | some p0 =>
      have hp := List.find?_some (p := fun p => playerKeyEq p sid u) hfind
      simp only [playerKeyEq, Bool.and_eq_true, beq_iff_eq] at hp
      have hne' : u ≠ u' := fun h => he h.symm
      have hkey : playerKeyEq p0 sid u' = false := by
        simp [playerKeyEq, hp.2, hne']
      simp [hkey]

/-- The approval loop never touches the `words` or `wordOwners` maps. -/
theorem approveLoop_words (owners : List String) (sid : Nat) (potency : Int)
    (st : Storage) :
    (owners.foldl (approveOwnerStep sid potency) st).words = st.words ∧
    (owners.foldl (approveOwnerStep sid potency) st).wordOwners = st.wordOwners := by
  induction owners generalizing st with
  | nil => exact ⟨rfl, rfl⟩
  | cons o rest ih =>
    have hstep : (approveOwnerStep sid potency st o).words = st.words ∧
        (approveOwnerStep sid potency st o).wordOwners = st.wordOwners := by
      unfold approveOwnerStep
      cases getPlayerInSession st sid o <;> exact ⟨rfl, rfl⟩
    simp only [List.foldl_cons]
    exact ⟨(ih _).1.trans hstep.1, (ih _).2.trans hstep.2⟩

/-- The approval loop leaves every player whose id is not in the owner list
untouched. -/
theorem approveLoop_not_mem (owners : List String) (sid : Nat) (potency : Int)
    (st : Storage) (o : String) (ho : o ∉ owners) :
    getPlayerInSession (owners.foldl (approveOwnerStep sid potency) st) sid o =
      getPlayerInSession st sid o := by
  induction owners generalizing st with
  | nil => rfl
  | cons o' rest ih =>
    simp only [List.mem_cons, not_or] at ho
    simp only [List.foldl_cons]
    rw [ih _ ho.2]
    unfold approveOwnerStep
    cases getPlayerInSession st sid o' with
    | none => rfl
    | some pl =>
      rw [getPlayerInSession_updatePlayerNerve, if_neg (Ne.symm ho.1)]

/-- The approval loop adjusts each listed owner's nerve exactly once
(the owner list comes from a `Set`, hence is duplicate-free). -/
theorem approveLoop_mem (owners : List String) (sid : Nat) (potency : Int)
    (st : Storage) (o : String) (pl : SessionPlayer)
    (hnodup : owners.Nodup) (ho : o ∈ owners)
    (hpl : getPlayerInSession st sid o = some pl) :
    getPlayerInSession (owners.foldl (approveOwnerStep sid potency) st) sid o =
      some { pl with nerve := adjustNerve potency (jsOr pl.nerve 0) } := by
  induction owners generalizing st with
  | nil => cases ho
  | cons o' rest ih =>
    simp only [List.nodup_cons] at hnodup
    simp only [List.foldl_cons]
    rcases List.mem_cons.mp ho with rfl | hrest
    · rw [approveLoop_not_mem _ _ _ _ _ hnodup.1]
      unfold approveOwnerStep
      rw [hpl, getPlayerInSession_updatePlayerNerve]
      simp [hpl]
    · have hne : o' ≠ o := fun h => hnodup.1 (h ▸ hrest)
      refine ih _ hnodup.2 hrest ?_
      unfold approveOwnerStep
      cases getPlayerInSession st sid o' with
      | none => exact hpl
      | some pl' =>
        rw [getPlayerInSession_updatePlayerNerve]
        simp [hne, hpl]

/-- C2 counterexample state: session 1 run by GM `"gm"`, word 1 (`"Ba"`,
pending) owned by player `"p1"` who has nerve 8 and `maxNerve` 10. -/
def c2State : Storage :=
  { sessions :=
      [{ id := 1, code := "C", name := "S", gmId := "gm",
         encounterSentence := none, encounterNoun := none, encounterVerb := none,
         encounterAdjective := none, encounterThreat := none,
         encounterDifficulty := none, encounterLength := none,
         isPrepTurn := false, currentPrepWordIndex := 0,
         currentPrepWordTurnCount := 0, vowels := [], currentTurn := 1,
         isActive := true }],
    sessionPlayers :=
      [{ sessionId := 1, userId := "p1", playerName := none, nerve := 8,
         maxNerve := 10, turnOrder := some 0, isActive := true,
         isActiveTurn := false, joinedAt := 0 }],
    words :=
      [{ id := 1, sessionId := 1, word := "Ba", meaning := "m",
         category := "noun", potency := none, isApproved := false }],
    wordOwners := [(1, ["p1"])],
    wordCounter := 2 }

/-- C2 counterexample: the GM approves word 1 with potency `-1`.  The owner
`"p1"` has nerve 8 and `maxNerve` 10, so the claim predicts a new nerve of
`min(maxNerve, 8 + 1) = 9`; the code computes `Math.min(8, 8 + 1) = 8`
(the ceiling is the constant 8, not the player's `maxNerve`). -/
theorem c2_maxNerve_ceiling_counterexample :
    (getPlayerInSession c2State 1 "p1").map (fun p => (p.nerve, p.maxNerve)) =
      some (8, 10) ∧
    ((routeOk (approveWordRoute c2State 1 1 "gm" (-1))).map
      (fun r => (getPlayerInSession r.1 1 "p1").map (fun p => p.nerve))) =
      some (some 8) ∧
    min (10 : Int) (8 + |(-1 : Int)|) = 9 ∧ (8 : Int) ≠ 9 := by
  refine ⟨rfl, ?_, by decide, by decide⟩
  decide

/-- C2 (amended).  For every word approval with integer potency
`p ∈ [-2, 2]` by the session GM, and for every current owner of the word that
is a player of the session with nerve `n`: the word's potency is set to `p`
with `isApproved = true`, and the owner's nerve becomes `max(1, n - p)` when
`p > 0`, `min(8, n + |p|)` when `p < 0` (the ceiling is the constant 8 — the
default `maxNerve` — not the player's own `maxNerve` field), and stays `n`
when `p = 0`. -/
theorem c2_approve_word_adjusts_nerve (st : Storage) (sid wordId : Nat)
    (uid : String) (potency : Int) (s : GameSession) (w : Word) (o : String)
    (pl : SessionPlayer)
    (huid : uid ≠ "")
    (hrange : -2 ≤ potency ∧ potency ≤ 2)
    (hsess : getGameSession st sid = some s)
    (hgm : s.gmId = uid)
    (hw : st.words.find? (fun v => v.id == wordId) = some w)
    (hnodup : (getWordOwners st wordId).Nodup)
    (ho : o ∈ getWordOwners st wordId)
    (hpl : getPlayerInSession st sid o = some pl) :
    ∃ st', approveWordRoute st sid wordId uid potency =
        .ok (st', { w with potency := some potency, isApproved := true }) ∧
      st'.words.find? (fun v => v.id == wordId) =
        some { w with potency := some potency, isApproved := true } ∧
      getPlayerInSession st' sid o =
        some { pl with nerve :=
          if potency > 0 then max 1 (pl.nerve - potency)
          else if potency < 0 then min 8 (pl.nerve + |potency|)
          else pl.nerve } := by
  have hwid : (w.id == wordId) = true :=
    List.find?_some (p := fun (v : Word) => v.id == wordId) hw
  set w' : Word := { w with potency := some potency, isApproved := true } with hw'def
  set g : Word → Word := fun v => if v.id == wordId then w' else v with hgdef
  set st1 : Storage := { st with words := st.words.map g } with hst1
  have happrove : approveWord st wordId potency = some (st1, w') := by
    unfold approveWord
    rw [hw]
  have howners : getWordOwners st1 wordId = getWordOwners st wordId := rfl
  have hroute : approveWordRoute st sid wordId uid potency =
      .ok ((getWordOwners st wordId).foldl (approveOwnerStep sid potency) st1, w') := by
    unfold approveWordRoute
    rw [if_neg huid, if_neg (not_not_intro hrange), hsess]
    dsimp only
    rw [if_neg (not_not_intro hgm), happrove]
    rfl
  refine ⟨_, hroute, ?_, ?_⟩
  · rw [(approveLoop_words _ _ _ _).1]
    show (st.words.map g).find? _ = _
    rw [find?_map_pred (p := fun v => v.id == wordId) g _
          (by
            intro x
            rw [hgdef]
            dsimp only
            by_cases hx : (x.id == wordId) = true
            · simp only [hx, if_true]
              exact hwid
            · simp [hx])]
    rw [hw, hgdef]
    simp only [Option.map_some', if_pos hwid]
  · have hbase : getPlayerInSession st1 sid o = some pl := hpl
    rw [approveLoop_mem _ _ _ _ _ _ hnodup ho hbase, jsOr_zero]
    rfl

/-- The session of the C2 amended-claim witness. -/
def c2WSession : GameSession :=
  { id := 1, code := "C", name := "S", gmId := "gm",
    encounterSentence := none, encounterNoun := none,
    encounterVerb := none, encounterAdjective := none,
    encounterThreat := none, encounterDifficulty := none,
    encounterLength := none, isPrepTurn := false,
    currentPrepWordIndex := 0, currentPrepWordTurnCount := 0,
    vowels := [], currentTurn := 1, isActive := true }

/-- The player of the C2 amended-claim witness (nerve 3, default maxNerve). -/
def c2WPlayer : SessionPlayer :=
  { sessionId := 1, userId := "p1", playerName := none, nerve := 3,
    maxNerve := 8, turnOrder := some 0, isActive := true,
    isActiveTurn := false, joinedAt := 0 }

/-- The pending word of the C2 amended-claim witness. -/
def c2WWord : Word :=
  { id := 1, sessionId := 1, word := "Ba", meaning := "m",
    category := "noun", potency := none, isApproved := false }

/-- The storage of the C2 amended-claim witness. -/
def c2WState : Storage :=
  { sessions := [c2WSession], sessionPlayers := [c2WPlayer],
    words := [c2WWord], wordOwners := [(1, ["p1"])], wordCounter := 2 }

/-- C2 amended-claim witness: in a session whose sole owner has nerve 3 and
`maxNerve` 8, GM approval with potency 2 drops the owner's nerve to
`max(1, 3 - 2) = 1`. -/
theorem c2_approve_word_adjusts_nerve_witness :
    ∃ st', approveWordRoute c2WState 1 1 "gm" 2 =
        .ok (st', { c2WWord with potency := some 2, isApproved := true }) ∧
      st'.words.find? (fun v => v.id == 1) =
        some { c2WWord with potency := some 2, isApproved := true } ∧
      getPlayerInSession st' 1 "p1" =
        some { c2WPlayer with nerve :=
          if (2 : Int) > 0 then max 1 (c2WPlayer.nerve - 2)
          else if (2 : Int) < 0 then min 8 (c2WPlayer.nerve + |(2 : Int)|)
          else c2WPlayer.nerve } := by
  exact c2_approve_word_adjusts_nerve c2WState 1 1 "gm" 2 c2WSession c2WWord
    "p1" c2WPlayer (by decide) (by decide) (by decide) (by decide) (by decide)
    (by decide) (by decide) (by decide)

/-! ### C7: stat adjustment before potency is set -/

/-- C7 counterexample state: session 1 in the prep phase on its noun `"Ba"`
(threat/difficulty/length all 5), with `"Ba"` in the dictionary and its
potency still null. -/
def c7State : Storage :=
  { sessions :=
      [{ id := 1, code := "C", name := "S", gmId := "gm",
         encounterSentence := some "s", encounterNoun := some "Ba",
         encounterVerb := some "Li", encounterAdjective := some "Po",
         encounterThreat := some 5, encounterDifficulty := some 5,
         encounterLength := some 5, isPrepTurn := true,
         currentPrepWordIndex := 0, currentPrepWordTurnCount := 0,
         vowels := [], currentTurn := 1, isActive := true }],
    sessionPlayers := [],
    words :=
      [{ id := 1, sessionId := 1, word := "Ba", meaning := "m",
         category := "noun", potency := none, isApproved := true }],
    wordOwners := [(1, [])],
    wordCounter := 2 }

/-- C7 counterexample: the current encounter word `"Ba"` is in the dictionary
with a null potency, yet `adjust-encounter-stat` does not fail — it succeeds
with adjustment 0 (`wordInDictionary.potency || 0`), returning the stats
`(5, 5, 5)`.  The claim that every stat-adjustment request fails with a
precondition error while potency is unset is therefore false for this
route. -/
theorem c7_adjust_null_potency_counterexample :
    (findWordByText c7State 1 "Ba").map (fun w => w.potency) = some none ∧
    routeOk (adjustEncounterStatRoute c7State 1 "threat" "u1" none none) ≠ none ∧
    (routeOk (adjustEncounterStatRoute c7State 1 "threat" "u1" none none)).map
      (fun r => r.2) = some (0, 5, 5, 5) := by
  refine ⟨rfl, ?_, ?_⟩ <;> decide

/-- C7 (amended).  While the current encounter word's potency is null:
`modify-stats` fails with the potency-not-set (precondition) error and
changes nothing, but `adjust-encounter-stat` succeeds, using
`potency || 0 = 0` as the adjustment, so each selected stat is merely
re-clamped (`max(1, min(10, (stat || 1) + 0))`) — an in-range stat keeps its
value, and no error is reported. -/
theorem c7_null_potency_amended (st : Storage) (sid : Nat) (uid : String)
    (s : GameSession) (cw : String) (w : Word)
    (meaning : Option String) (pin : Option Int)
    (huid : uid ≠ "")
    (hsess : getGameSession st sid = some s)
    (hcw : strOrNull (currentPrepWord s).1 = some cw)
    (hfind : findWordByText st sid cw = some w)
    (hpot : w.potency = none) :
    modifyStatsRoute st sid uid =
      .error "GM must set potency for the current word before stats can be modified" ∧
    (∃ st', adjustEncounterStatRoute st sid "threat" uid meaning pin =
      .ok (st', 0, clampStat (jsOrN s.encounterThreat 1 + 0),
           jsOrN s.encounterDifficulty 1, jsOrN s.encounterLength 1)) ∧
    (∃ st', adjustEncounterStatRoute st sid "difficulty" uid meaning pin =
      .ok (st', 0, jsOrN s.encounterThreat 1,
           clampStat (jsOrN s.encounterDifficulty 1 + 0), jsOrN s.encounterLength 1)) ∧
    (∃ st', adjustEncounterStatRoute st sid "length" uid meaning pin =
      .ok (st', 0, jsOrN s.encounterThreat 1, jsOrN s.encounterDifficulty 1,
           clampStat (jsOrN s.encounterLength 1 + 0))) ∧
    (∀ v : Int, 1 ≤ v → v ≤ 10 → clampStat (v + 0) = v) := by
  have hmod : modifyStatsRoute st sid uid =
      .error "GM must set potency for the current word before stats can be modified" := by
    unfold modifyStatsRoute
    rw [if_neg huid, hsess]
    dsimp only
    rw [hcw]
    dsimp only
    rw [hfind]
    dsimp only
    rw [hpot]
  have hadj : ∀ stat : String, stat ≠ "" →
      adjustEncounterStatRoute st sid stat uid meaning pin =
        (let st1 := st
         let st2 := if s.gmId = "" then st1 else addWordOwner st1 w.id s.gmId
         let t0 := jsOrN s.encounterThreat 1
         let d0 := jsOrN s.encounterDifficulty 1
         let l0 := jsOrN s.encounterLength 1
         let stats :=
           if stat = "threat" then some (clampStat (t0 + 0), d0, l0)
           else if stat = "difficulty" then some (t0, clampStat (d0 + 0), l0)
           else if stat = "length" then some (t0, d0, clampStat (l0 + 0))
           else none
         match stats with
         | none => Except.error "Invalid stat to adjust"
         | some (newThreat, newDifficulty, newLength) =>
           Except.ok
             (updateEncounter st2 sid
               { sentence := strOr s.encounterSentence "",
                 threat := some newThreat, difficulty := some newDifficulty,
                 encLength := some newLength,
                 noun := none, verb := none, adjective := none,
                 isPrepTurn := none, currentPrepWordIndex := none,
                 currentPrepWordTurnCount := none },
              0, newThreat, newDifficulty, newLength)) := by
    intro stat hstat
    unfold adjustEncounterStatRoute
    rw [if_neg (by simp [hstat, huid]), hsess]
    dsimp only
    rw [hcw]
    dsimp only
    rw [hfind]
    dsimp only
    rw [hpot]
    rfl
  refine ⟨hmod, ?_, ?_, ?_, ?_⟩
  · exact ⟨_, by rw [hadj "threat" (by decide)]; rfl⟩
  · exact ⟨_, by rw [hadj "difficulty" (by decide)]; rfl⟩
  · exact ⟨_, by rw [hadj "length" (by decide)]; rfl⟩
  · intro v h1 h10
    unfold clampStat
    omega

/-- C7 amended-claim witness: the amended theorem applied to the concrete
prep-phase state `c7State` (current word `"Ba"` in the dictionary, potency
null, stats `(5, 5, 5)`). -/
theorem c7_null_potency_amended_witness :
    modifyStatsRoute c7State 1 "u1" =
      .error "GM must set potency for the current word before stats can be modified" ∧
    (∃ st', adjustEncounterStatRoute c7State 1 "threat" "u1" none none =
      .ok (st', 0, clampStat ((5 : Int) + 0), (5 : Int), (5 : Int))) := by
  obtain ⟨h1, h2, -, -, -⟩ :=
    c7_null_potency_amended c7State 1 "u1"
      { id := 1, code := "C", name := "S", gmId := "gm",
        encounterSentence := some "s", encounterNoun := some "Ba",
        encounterVerb := some "Li", encounterAdjective := some "Po",
        encounterThreat := some 5, encounterDifficulty := some 5,
        encounterLength := some 5, isPrepTurn := true,
        currentPrepWordIndex := 0, currentPrepWordTurnCount := 0,
        vowels := [], currentTurn := 1, isActive := true }
      "Ba"
      { id := 1, sessionId := 1, word := "Ba", meaning := "m",
        category := "noun", potency := none, isApproved := true }
      none none (by decide) (by decide) (by decide) (by decide) (by decide)
  exact ⟨h1, h2⟩

/-! ### C10: getPendingWords and the new-encounter cleanup -/

/-- The word row built for a GM-generated encounter word. -/
def mkEncWord (i sid : Nat) (txt meaning cat : String) : Word :=
  { id := i, sessionId := sid, word := txt, meaning := meaning,
    category := cat, potency := none, isApproved := true }

/-- Id-freshness invariant of the words map: every stored id is below the
counter and the ids are duplicate-free. -/
def WordsFresh (st : Storage) : Prop :=
  (∀ w ∈ st.words, w.id < st.wordCounter) ∧
  (st.words.map (fun w => w.id)).Nodup

/-- The assignment loop of `recalculateTurnOrder` only writes the
`sessionPlayers` map. -/
theorem assignTurnOrdersFrom_others (sid : Nat) (l : List SessionPlayer)
    (k : Nat) (st : Storage) :
    (assignTurnOrdersFrom sid k l st).sessions = st.sessions ∧
    (assignTurnOrdersFrom sid k l st).words = st.words ∧
    (assignTurnOrdersFrom sid k l st).wordOwners = st.wordOwners ∧
    (assignTurnOrdersFrom sid k l st).wordCounter = st.wordCounter := by
  induction l generalizing st k with
  | nil => exact ⟨rfl, rfl, rfl, rfl⟩
  | cons p l ih => exact ih _ _

/-- `recalculateTurnOrder` only writes the `sessionPlayers` map. -/
theorem recalculateTurnOrder_others (st : Storage) (sid : Nat) :
    (recalculateTurnOrder st sid).sessions = st.sessions ∧
    (recalculateTurnOrder st sid).words = st.words ∧
    (recalculateTurnOrder st sid).wordOwners = st.wordOwners ∧
    (recalculateTurnOrder st sid).wordCounter = st.wordCounter :=
  assignTurnOrdersFrom_others sid _ 0 st

/-- The words and counter after the three encounter-word insertions of the
new-encounter branch: the three rows are appended, pre-approved with null
potency, under the ids `wordCounter`, `wordCounter + 1`, `wordCounter + 2`. -/
theorem newEncounterSetup_words (st : Storage) (sid : Nat)
    (sentence : Option String) (tn dn ln : Option Int)
    (noun verb adjective : String)
    (hn : noun ≠ "") (hv : verb ≠ "") (ha : adjective ≠ "") :
    (newEncounterSetup st sid sentence tn dn ln
        (some noun) (some verb) (some adjective)).words =
      st.words ++
        [mkEncWord st.wordCounter sid noun "GM generated encounter noun" "noun",
         mkEncWord (st.wordCounter + 1) sid verb "GM generated encounter verb" "verb",
         mkEncWord (st.wordCounter + 2) sid adjective
           "GM generated encounter adjective" "adjective"] ∧
    (newEncounterSetup st sid sentence tn dn ln
        (some noun) (some verb) (some adjective)).wordCounter =
      st.wordCounter + 3 := by
  unfold newEncounterSetup insertEncounterWord
  have hsn : strOrNull (some noun) = some noun := by simp [strOrNull, hn]
  have hsv : strOrNull (some verb) = some verb := by simp [strOrNull, hv]
  have hsa : strOrNull (some adjective) = some adjective := by simp [strOrNull, ha]
  have hvb : ("verb" : String) ≠ "" := by decide
  have haj : ("adjective" : String) ≠ "" := by decide
  rw [hsn, hsv, hsa]
  dsimp only [createWord]
  constructor <;>
  · split <;>
    simp [resetTurnsForNewEncounter, updateSession, clearActiveTurns,
      updateEncounter, setActiveTurn, mkEncWord, strOr, jsOrNull,
      Option.getD, hvb, haj,
      (recalculateTurnOrder_others _ sid).2.1,
      (recalculateTurnOrder_others _ sid).2.2.2]

/-- Folding `deleteWord` over a list of words removes exactly the rows whose
id occurs in the list. -/
theorem foldl_deleteWord_words (ds : List Word) (st : Storage) :
    (ds.foldl (fun acc w => deleteWord acc w.id) st).words =
      st.words.filter (fun w => !(ds.any (fun d => w.id == d.id))) := by
  induction ds generalizing st with
  | nil => simp
  | cons d ds ih =>
    simp only [List.foldl_cons]
    rw [ih]
    show (st.words.filter _).filter _ = _
    rw [List.filter_filter]
    refine List.filter_congr ?_
    intro w _
    simp [List.any_cons, Bool.not_or, Bool.and_comm]

/-- With duplicate-free word ids, the pending-word cleanup loop leaves exactly
the words that are not pending in the session (every null-potency word of the
session is deleted, regardless of its `isApproved` flag). -/
theorem encounterCleanup_words (st : Storage) (sid : Nat)
    (hnodup : (st.words.map (fun w => w.id)).Nodup) :
    (encounterCleanup st sid).words =
      st.words.filter (fun w => !(w.sessionId == sid && w.potency == none)) := by
  unfold encounterCleanup
  unfold getPendingWords
  rw [foldl_deleteWord_words]
  refine List.filter_congr ?_
  intro w hw
  congr 1
  by_cases hp : (w.sessionId == sid && w.potency == none) = true
  · rw [hp]
    rw [List.any_eq_true]
    exact ⟨w, List.mem_filter.mpr ⟨hw, hp⟩, by simp⟩
  · have hany : ((st.words.filter
        (fun v => v.sessionId == sid && v.potency == none)).any
          (fun d => w.id == d.id)) = false := by
      rw [List.any_eq_false]
      intro d hd
      have hdmem := (List.mem_filter.mp hd).1
      have hdp := (List.mem_filter.mp hd).2
      intro hid
      have hwd : w = d :=
        List.inj_on_of_nodup_map hnodup hw hdmem (by simpa using hid)
      exact hp (hwd ▸ hdp)
    have hpf : (w.sessionId == sid && w.potency == none) = false := by
      simpa using hp
    rw [hany, hpf]

/-- C10.  `getPendingWords` returns exactly the session's words whose potency
is null, regardless of their `isApproved` flag; consequently the three
GM-generated encounter words (created with `isApproved = true` and a null
potency by the new-encounter branch) are pending at the moment the cleanup
loop runs, and the cleanup — which deletes every word `getPendingWords`
returns — deletes them: after the branch no null-potency word of the session
remains. -/
theorem c10_pending_words_cleanup (st : Storage) (sid : Nat)
    (sentence : Option String) (tn dn ln : Option Int)
    (noun verb adjective : String)
    (hn : noun ≠ "") (hv : verb ≠ "") (ha : adjective ≠ "")
    (hfresh : WordsFresh st) :
    (∀ w : Word, w ∈ getPendingWords st sid ↔
      w ∈ st.words ∧ w.sessionId = sid ∧ w.potency = none) ∧
    (∀ txt ∈ [noun, verb, adjective],
      ∃ w ∈ getPendingWords
          (newEncounterSetup st sid sentence tn dn ln
            (some noun) (some verb) (some adjective)) sid,
        w.word = txt ∧ w.isApproved = true ∧ w.potency = none) ∧
    (newEncounterBranch st sid sentence tn dn ln
        (some noun) (some verb) (some adjective)).words =
      (newEncounterSetup st sid sentence tn dn ln
          (some noun) (some verb) (some adjective)).words.filter
        (fun w => !(w.sessionId == sid && w.potency == none)) ∧
    (∀ w ∈ (newEncounterBranch st sid sentence tn dn ln
        (some noun) (some verb) (some adjective)).words,
      ¬(w.sessionId = sid ∧ w.potency = none)) := by
  obtain ⟨hwords, hcounter⟩ :=
    newEncounterSetup_words st sid sentence tn dn ln noun verb adjective hn hv ha
  have hmidnodup :
      ((newEncounterSetup st sid sentence tn dn ln
        (some noun) (some verb) (some adjective)).words.map (fun w => w.id)).Nodup := by
    rw [hwords]
    rw [List.map_append, List.nodup_append]
    refine ⟨hfresh.2, by simp [mkEncWord], ?_⟩
    intro i hi
    simp only [List.mem_map] at hi
    obtain ⟨w, hwmem, rfl⟩ := hi
    have := hfresh.1 w hwmem
    simp only [mkEncWord, List.map_cons, List.map_nil, List.mem_cons,
      List.not_mem_nil, or_false]
    omega
  have hclean := encounterCleanup_words _ sid hmidnodup
  refine ⟨?_, ?_, hclean, ?_⟩
  · intro w
    simp [getPendingWords, List.mem_filter]
  · intro txt htxt
    have hmem : ∀ w : Word, w ∈
        (newEncounterSetup st sid sentence tn dn ln
          (some noun) (some verb) (some adjective)).words.filter
            (fun v => v.sessionId == sid && v.potency == none) →
        w ∈ getPendingWords
          (newEncounterSetup st sid sentence tn dn ln
            (some noun) (some verb) (some adjective)) sid := by
      intro w hw
      exact hw
    simp only [List.mem_cons, List.not_mem_nil, or_false] at htxt
    rcases htxt with rfl | rfl | rfl
    · refine ⟨mkEncWord st.wordCounter sid txt "GM generated encounter noun" "noun",
        ?_, rfl, rfl, rfl⟩
      refine hmem _ (List.mem_filter.mpr ⟨?_, by simp [mkEncWord]⟩)
      rw [hwords]; simp [mkEncWord]
    · refine ⟨mkEncWord (st.wordCounter + 1) sid txt
        "GM generated encounter verb" "verb", ?_, rfl, rfl, rfl⟩
      refine hmem _ (List.mem_filter.mpr ⟨?_, by simp [mkEncWord]⟩)
      rw [hwords]; simp [mkEncWord]
    · refine ⟨mkEncWord (st.wordCounter + 2) sid txt
        "GM generated encounter adjective" "adjective", ?_, rfl, rfl, rfl⟩
      refine hmem _ (List.mem_filter.mpr ⟨?_, by simp [mkEncWord]⟩)
      rw [hwords]; simp [mkEncWord]
  · intro w hw
    rw [show (newEncounterBranch st sid sentence tn dn ln
        (some noun) (some verb) (some adjective)) =
      encounterCleanup (newEncounterSetup st sid sentence tn dn ln
        (some noun) (some verb) (some adjective)) sid from rfl] at hw
    rw [hclean] at hw
    have := (List.mem_filter.mp hw).2
    intro hcontra
    simp [hcontra.1, hcontra.2] at this

/-- C10 witness: from an empty storage, a new encounter with words
`"Ba"`, `"Li"`, `"Po"` in session 1 creates the three pre-approved pending
rows and then deletes them all in the cleanup. -/
theorem c10_pending_words_cleanup_witness :
    letI st0 : Storage :=
      { sessions := [], sessionPlayers := [], words := [],
        wordOwners := [], wordCounter := 1 }
    ("Ba" : String) ≠ "" ∧ WordsFresh st0 ∧
    (∀ w ∈ (newEncounterBranch st0 1 none none none none
        (some "Ba") (some "Li") (some "Po")).words,
      ¬(w.sessionId = 1 ∧ w.potency = none)) := by
  refine ⟨by decide, ⟨by simp, by simp⟩, ?_⟩
  exact (c10_pending_words_cleanup
    { sessions := [], sessionPlayers := [], words := [],
      wordOwners := [], wordCounter := 1 }
    1 none none none none "Ba" "Li" "Po"
    (by decide) (by decide) (by decide) ⟨by simp, by simp⟩).2.2.2

/-! ### C1: at most one active player per session -/

/-- The number of players of session `sid` with `isActiveTurn = true` in a
player list. -/
def countActiveL (l : List SessionPlayer) (sid : Nat) : Nat :=
  l.countP (fun p => p.sessionId == sid && p.isActiveTurn)

/-- The number of players of session `sid` with `isActiveTurn = true`. -/
def countActive (st : Storage) (sid : Nat) : Nat :=
  countActiveL st.sessionPlayers sid

/-- The number of entries stored at the map key `sessionId-userId` (one in
any state reachable through `Map.set`). -/
def countKeyL (l : List SessionPlayer) (sid : Nat) (uid : String) : Nat :=
  l.countP (fun p => playerKeyEq p sid uid)

/-- The `sessionId-userId` map keys of a player list. -/
def playerKeys (l : List SessionPlayer) : List (Nat × String) :=
  l.map (fun p => (p.sessionId, p.userId))

/-- A key that does not occur in the list is stored zero times. -/
theorem countKeyL_eq_zero (l : List SessionPlayer) (sid : Nat) (uid : String)
    (h : (sid, uid) ∉ playerKeys l) : countKeyL l sid uid = 0 := by
  rw [countKeyL, List.countP_eq_zero]
  intro p hp
  simp only [playerKeys, List.mem_map, not_exists, not_and] at h
  simp only [playerKeyEq, Bool.and_eq_true, beq_iff_eq, not_and]
  intro h1 h2
  exact h p hp (by rw [h1, h2])

/-- With duplicate-free keys, each key is stored at most once. -/
theorem countKeyL_le_one (l : List SessionPlayer) (sid : Nat) (uid : String)
    (h : (playerKeys l).Nodup) : countKeyL l sid uid ≤ 1 := by
  induction l with
  | nil => simp [countKeyL]
  | cons p l ih =>
    rw [playerKeys, List.map_cons, List.nodup_cons] at h
    rw [countKeyL, List.countP_cons]
    by_cases hk : playerKeyEq p sid uid = true
    · have hk2 := hk
      simp only [playerKeyEq, Bool.and_eq_true, beq_iff_eq] at hk2
      have hz : countKeyL l sid uid = 0 := by
        refine countKeyL_eq_zero l sid uid ?_
        rw [← hk2.1, ← hk2.2]
        exact h.1
      rw [countKeyL] at hz
      rw [hz, hk]
      simp
    · simp only [hk, if_false]
      simpa [countKeyL] using ih h.2

/-- A pointwise rewrite that preserves the key fields preserves the key
list. -/
theorem playerKeys_map (g : SessionPlayer → SessionPlayer)
    (l : List SessionPlayer)
    (hg : ∀ p, (g p).sessionId = p.sessionId ∧ (g p).userId = p.userId) :
    playerKeys (l.map g) = playerKeys l := by
  unfold playerKeys
  rw [List.map_map]
  exact List.map_congr_left (fun p _ => by simp [(hg p).1, (hg p).2])

/-- Active-player count after the clear-then-set sequence shared by
`setActiveTurn` and `advanceToNextPlayer`: in the touched session it is the
number of entries at the written key; other sessions are unchanged. -/
theorem countActiveL_clear_set (l : List SessionPlayer) (sid : Nat)
    (uid : String) (sid' : Nat) :
    countActiveL (setKeyActiveTurn (clearActiveTurns l sid) sid uid) sid' =
      if sid' = sid then countKeyL l sid uid else countActiveL l sid' := by
  induction l with
  | nil => simp [countActiveL, countKeyL, clearActiveTurns, setKeyActiveTurn]
  | cons p l ih =>
    unfold countActiveL countKeyL clearActiveTurns setKeyActiveTurn at *
    simp only [List.map_cons, List.countP_cons]
    rw [ih]
    by_cases hs : p.sessionId = sid
    · rw [if_pos (show (p.sessionId == sid) = true by simpa using hs)]
      by_cases hu : p.userId = uid
      · rw [if_pos (show playerKeyEq { p with isActiveTurn := false } sid uid = true
            by simp [playerKeyEq, hs, hu])]
        by_cases hss : sid' = sid
        · subst hss
          rw [if_pos rfl, if_pos rfl]
          have hp1 : (p.sessionId == sid') = true := by simpa using hs
          have hp2 : playerKeyEq p sid' uid = true := by simp [playerKeyEq, hs, hu]
          simp [hp1, hp2]
        · rw [if_neg hss, if_neg hss]
          have hp1 : (p.sessionId == sid') = false := by
            simp only [beq_eq_false_iff_ne, ne_eq]
            intro h
            exact hss (by rw [← h, hs])
          simp [hp1]
      · rw [if_neg (show ¬ playerKeyEq { p with isActiveTurn := false } sid uid = true
            by simp [playerKeyEq, hu])]
        by_cases hss : sid' = sid
        · subst hss
          rw [if_pos rfl, if_pos rfl]
          have hp2 : playerKeyEq p sid' uid = false := by simp [playerKeyEq, hu]
          simp [hp2]
        · rw [if_neg hss, if_neg hss]
          have hp1 : (p.sessionId == sid') = false := by
            simp only [beq_eq_false_iff_ne, ne_eq]
            intro h
            exact hss (by rw [← h, hs])
          simp [hp1]
    · rw [if_neg (show ¬ (p.sessionId == sid) = true by simpa using hs)]
      rw [if_neg (show ¬ playerKeyEq p sid uid = true by simp [playerKeyEq, hs])]
      by_cases hss : sid' = sid
      · subst hss
        rw [if_pos rfl, if_pos rfl]
        have hp1 : (p.sessionId == sid') = false := by
          simp only [beq_eq_false_iff_ne, ne_eq]
          exact hs
        have hp2 : playerKeyEq p sid' uid = false := by simp [playerKeyEq, hs]
        simp [hp1, hp2]
      · rw [if_neg hss, if_neg hss]

/-- Active-player count after the clear loop alone: zero in the touched
session, unchanged elsewhere. -/
theorem countActiveL_clear (l : List SessionPlayer) (sid s : Nat) :
    countActiveL (clearActiveTurns l sid) s =
      if s = sid then 0 else countActiveL l s := by
  induction l with
  | nil => simp [countActiveL, clearActiveTurns]
  | cons p l ih =>
    unfold countActiveL clearActiveTurns at *
    simp only [List.map_cons, List.countP_cons]
    rw [ih]
    by_cases hss : s = sid
    · subst hss
      have hhead : ((if (p.sessionId == s) = true then
          { p with isActiveTurn := false } else p).sessionId == s &&
          (if (p.sessionId == s) = true then
            { p with isActiveTurn := false } else p).isActiveTurn) = false := by
        by_cases hs : p.sessionId = s
        · rw [if_pos (by simpa using hs)]
          simp
        · rw [if_neg (by simpa using hs)]
          simp [hs]
      rw [hhead]
      simp
    · have hhead : ((if (p.sessionId == sid) = true then
          { p with isActiveTurn := false } else p).sessionId == s &&
          (if (p.sessionId == sid) = true then
            { p with isActiveTurn := false } else p).isActiveTurn) =
          (p.sessionId == s && p.isActiveTurn) := by
        by_cases hs : p.sessionId = sid
        · rw [if_pos (by simpa using hs)]
          have hb : (p.sessionId == s) = false := by
            simp only [beq_eq_false_iff_ne, ne_eq]
            intro h
            exact hss (by rw [← h, hs])
          simp [hb]
        · rw [if_neg (by simpa using hs)]
      rw [hhead]
      simp [hss]

/-- Inserting (or replacing by) a player whose `isActiveTurn` is false never
increases a session's active count. -/
theorem countActiveL_playersMapSet_le (l : List SessionPlayer)
    (np : SessionPlayer) (sid' : Nat) (hflag : np.isActiveTurn = false) :
    countActiveL (playersMapSet l np) sid' ≤ countActiveL l sid' := by
  unfold playersMapSet
  split
  · rename_i hany
    clear hany
    induction l with
    | nil => simp
    | cons p l ih =>
      simp only [List.map_cons]
      unfold countActiveL at *
      simp only [List.countP_cons]
      refine Nat.add_le_add ih ?_
      by_cases hk : playerKeyEq p np.sessionId np.userId = true
      · rw [if_pos hk]
        have : (np.sessionId == sid' && np.isActiveTurn) = false := by
          rw [hflag]
          simp
        rw [this]
        simp
      · rw [if_neg hk]
  · unfold countActiveL
    rw [List.countP_append]
    have : (np.sessionId == sid' && np.isActiveTurn) = false := by
      rw [hflag]
      simp
    simp [this]

/-- The key list after `Map.set`: unchanged on replacement, extended by the
fresh key on insertion. -/
theorem playerKeys_playersMapSet_nodup (l : List SessionPlayer)
    (np : SessionPlayer) (h : (playerKeys l).Nodup) :
    (playerKeys (playersMapSet l np)).Nodup := by
  unfold playersMapSet
  split
  · rw [playerKeys_map _ _ (by
      intro p
      split
      · rename_i hk
        simp only [playerKeyEq, Bool.and_eq_true, beq_iff_eq] at hk
        exact ⟨hk.1.symm, hk.2.symm⟩
      · exact ⟨rfl, rfl⟩)]
    exact h
  · rename_i hany
    have : playerKeys (l ++ [np]) = playerKeys l ++ [(np.sessionId, np.userId)] := by
      simp [playerKeys]
    rw [this, List.nodup_append]
    refine ⟨h, by simp, ?_⟩
    intro k hk
    simp only [List.mem_singleton]
    intro hkeq
    subst hkeq
    simp only [Bool.not_eq_true] at hany
    have := List.any_eq_false.mp hany
    simp only [playerKeys, List.mem_map] at hk
    obtain ⟨p, hp, hpk⟩ := hk
    have hfalse := this p hp
    have h1 : p.sessionId = np.sessionId := congrArg Prod.fst hpk
    have h2 : p.userId = np.userId := congrArg Prod.snd hpk
    rw [playerKeyEq, h1, h2] at hfalse
    simp at hfalse

/-- The storage-level operations of the turn machinery whose reachable states
the invariant quantifies over.  `joinOp` carries the full
`InsertSessionPlayer` payload. -/
inductive TurnOp where
  | joinOp (p : InsertSessionPlayer)
  | setActiveOp (sid : Nat) (uid : String)
  | advanceOp (sid : Nat)
  | resetOp (sid : Nat)

/-- Run one completed storage operation.  A thrown `advanceToNextPlayer`
mutates nothing (both throws happen before any write), so an errored call
leaves the state unchanged. -/
def applyTurnOp (st : Storage) : TurnOp → Storage
  | .joinOp p => (joinSession st p).1
  | .setActiveOp sid uid => setActiveTurn st sid uid
  | .advanceOp sid =>
    match advanceToNextPlayer st sid with
    | some (st', _, _) => st'
    | none => st
  | .resetOp sid => resetTurnsForNewEncounter st sid

/-- Run a sequence of completed storage operations. -/
def applyTurnOps (st : Storage) (ops : List TurnOp) : Storage :=
  ops.foldl applyTurnOp st

/-- A join payload as every `joinSession` call site of the repository builds
it: the `isActiveTurn` field is never supplied (so it defaults to false); any
other operation qualifies unconditionally. -/
def joinNoActive : TurnOp → Prop
  | .joinOp p => p.isActiveTurn ≠ some true
  | _ => True

/-- The inductive invariant: duplicate-free map keys and at most one active
player in every session. -/
def ActiveInv (st : Storage) : Prop :=
  (playerKeys st.sessionPlayers).Nodup ∧ ∀ sid, countActive st sid ≤ 1

/-- On success, `advanceToNextPlayer` rewrites the player map by the same
clear-then-set sequence as `setActiveTurn` (for the chosen next player); the
turn-counter update touches only the sessions map. -/
theorem advance_players_shape (st : Storage) (sid : Nat) (st' : Storage)
    (uid : String) (b : Bool)
    (h : advanceToNextPlayer st sid = some (st', uid, b)) :
    st'.sessionPlayers =
      setKeyActiveTurn (clearActiveTurns st.sessionPlayers sid) sid uid := by
  unfold advanceToNextPlayer at h
  cases hs : getGameSession st sid with
  | none => rw [hs] at h; cases h
  | some s =>
    rw [hs] at h
    dsimp only at h
    split at h
    · cases h
    · split at h
      · cases h
      · rename_i np hget
        rw [Option.some_inj, Prod.mk.injEq, Prod.mk.injEq] at h
        obtain ⟨h1, h2, h3⟩ := h
        rw [← h1, ← h2]
        split <;> rfl

/-- `clearActiveTurns` does not change the map keys. -/
theorem playerKeys_clearActiveTurns (l : List SessionPlayer) (sid : Nat) :
    playerKeys (clearActiveTurns l sid) = playerKeys l := by
  unfold clearActiveTurns
  exact playerKeys_map _ _ (by intro p; split <;> exact ⟨rfl, rfl⟩)

/-- `setKeyActiveTurn` does not change the map keys. -/
theorem playerKeys_setKeyActiveTurn (l : List SessionPlayer) (sid : Nat)
    (uid : String) :
    playerKeys (setKeyActiveTurn l sid uid) = playerKeys l := by
  unfold setKeyActiveTurn
  exact playerKeys_map _ _ (by intro p; split <;> exact ⟨rfl, rfl⟩)

/-- One completed operation preserves the invariant. -/
theorem applyTurnOp_inv (st : Storage) (op : TurnOp) (hop : joinNoActive op)
    (hinv : ActiveInv st) : ActiveInv (applyTurnOp st op) := by
  obtain ⟨hkeys, hcount⟩ := hinv
  cases op with
  | joinOp p =>
    have hflag : (mkJoinedPlayer p).isActiveTurn = false := by
      unfold joinNoActive at hop
      unfold mkJoinedPlayer
      cases hia : p.isActiveTurn with
      | none => rfl
      | some bflag =>
        cases bflag
        · rfl
        · exact absurd hia hop
    refine ⟨?_, ?_⟩
    · exact playerKeys_playersMapSet_nodup _ _ hkeys
    · intro s
      exact le_trans (countActiveL_playersMapSet_le _ _ _ hflag) (hcount s)
  | setActiveOp sid uid =>
    refine ⟨?_, ?_⟩
    · show (playerKeys (setKeyActiveTurn (clearActiveTurns _ _) _ _)).Nodup
      rw [playerKeys_setKeyActiveTurn, playerKeys_clearActiveTurns]
      exact hkeys
    · intro s
      show countActiveL (setKeyActiveTurn (clearActiveTurns _ _) _ _) s ≤ 1
      rw [countActiveL_clear_set]
      split
      · exact countKeyL_le_one _ _ _ hkeys
      · exact hcount s
  | advanceOp sid =>
    show ActiveInv (match advanceToNextPlayer st sid with
      | some (st', _, _) => st' | none => st)
    cases hadv : advanceToNextPlayer st sid with
    | none => exact ⟨hkeys, hcount⟩
    | some r =>
      obtain ⟨st', uid, b⟩ := r
      have hshape := advance_players_shape st sid st' uid b hadv
      refine ⟨?_, ?_⟩
      · show (playerKeys st'.sessionPlayers).Nodup
        rw [hshape, playerKeys_setKeyActiveTurn, playerKeys_clearActiveTurns]
        exact hkeys
      · intro s
        show countActiveL st'.sessionPlayers s ≤ 1
        rw [hshape, countActiveL_clear_set]
        split
        · exact countKeyL_le_one _ _ _ hkeys
        · exact hcount s
  | resetOp sid =>
    refine ⟨?_, ?_⟩
    · show (playerKeys (clearActiveTurns _ _)).Nodup
      rw [playerKeys_clearActiveTurns]
      exact hkeys
    · intro s
      show countActiveL (clearActiveTurns st.sessionPlayers sid) s ≤ 1
      rw [countActiveL_clear]
      split
      · exact Nat.zero_le 1
      · exact hcount s

/-- The invariant is preserved by any sequence of completed operations. -/
theorem applyTurnOps_inv (st : Storage) (ops : List TurnOp)
    (hinv : ActiveInv st) (hops : ∀ op ∈ ops, joinNoActive op) :
    ActiveInv (applyTurnOps st ops) := by
  induction ops generalizing st with
  | nil => exact hinv
  | cons op ops ih =>
    rw [applyTurnOps, List.foldl_cons]
    exact ih _ (applyTurnOp_inv st op (hops op (List.mem_cons_self op ops)) hinv)
      (fun o ho => hops o (List.mem_cons.mpr (Or.inr ho)))

/-- C1.  Starting from any state satisfying the invariant (in particular the
empty initial `MemStorage`), after any sequence of completed `joinSession`
(as invoked by the repository: the `isActiveTurn` field is never supplied as
true by any call site), `setActiveTurn`, `advanceToNextPlayer` and
`resetTurnsForNewEncounter` operations, every session has at most one player
with `isActiveTurn = true`. -/
theorem c1_at_most_one_active (st : Storage) (ops : List TurnOp) (sid : Nat)
    (hkeys : (playerKeys st.sessionPlayers).Nodup)
    (hcount : ∀ s, countActive st s ≤ 1)
    (hops : ∀ op ∈ ops, joinNoActive op) :
    countActive (applyTurnOps st ops) sid ≤ 1 :=
  (applyTurnOps_inv st ops ⟨hkeys, hcount⟩ hops).2 sid

/-- C1 witness state: one session, no players yet. -/
def c1WState : Storage :=
  { sessions :=
      [{ id := 1, code := "C", name := "S", gmId := "gm",
         encounterSentence := none, encounterNoun := none, encounterVerb := none,
         encounterAdjective := none, encounterThreat := none,
         encounterDifficulty := none, encounterLength := none,
         isPrepTurn := false, currentPrepWordIndex := 0,
         currentPrepWordTurnCount := 0, vowels := [], currentTurn := 1,
         isActive := true }],
    sessionPlayers := [], words := [], wordOwners := [], wordCounter := 1 }

/-- The first C1 witness join payload, shaped as the join route builds it. -/
def c1WJoin1 : InsertSessionPlayer :=
  { sessionId := 1, userId := "p1", playerName := some "A",
    nerve := some 8, maxNerve := some 8, turnOrder := some 0,
    isActive := none, isActiveTurn := none, joinedAt := 0 }

/-- The second C1 witness join payload. -/
def c1WJoin2 : InsertSessionPlayer :=
  { sessionId := 1, userId := "p2", playerName := some "B",
    nerve := some 8, maxNerve := some 8, turnOrder := some 1,
    isActive := none, isActiveTurn := none, joinedAt := 1 }

/-- C1 witness operation sequence: two joins (as the join route performs
them), an explicit activation, a turn advance and an encounter reset. -/
def c1WOps : List TurnOp :=
  [.joinOp c1WJoin1, .setActiveOp 1 "p1", .joinOp c1WJoin2,
   .advanceOp 1, .resetOp 1]

/-- C1 witness: the invariant theorem applied to the concrete session and
operation sequence above. -/
theorem c1_at_most_one_active_witness :
    (playerKeys c1WState.sessionPlayers).Nodup ∧
    (∀ op ∈ c1WOps, joinNoActive op) ∧
    countActive (applyTurnOps c1WState c1WOps) 1 ≤ 1 := by
  have hops : ∀ op ∈ c1WOps, joinNoActive op := by
    intro op hop
    simp only [c1WOps, List.mem_cons, List.not_mem_nil, or_false] at hop
    rcases hop with rfl | rfl | rfl | rfl | rfl <;> simp [joinNoActive, c1WJoin1, c1WJoin2]
  refine ⟨by decide, hops, ?_⟩
  exact c1_at_most_one_active c1WState c1WOps 1 (by decide)
    (fun s => by simp [countActive, countActiveL, c1WState]) hops

/-! ### Stable-sort infrastructure shared by the turn-order properties -/

/-- Membership-preserving shape of `stableInsert`. -/
theorem stableInsert_perm {α : Type} (le : α → α → Bool) (l : List α) (a : α) :
    (stableInsert le l a).Perm (a :: l) := by
  induction l with
  | nil => exact List.Perm.refl _
  | cons b bs ih =>
    unfold stableInsert
    split
    · exact (ih.cons b).trans (List.Perm.swap a b bs)
    · exact List.Perm.refl _

/-- `stableSort` permutes its input. -/
theorem stableSort_perm {α : Type} (le : α → α → Bool) (l : List α) :
    (stableSort le l).Perm l := by
  have aux : ∀ (l acc : List α), (l.foldl (stableInsert le) acc).Perm (acc ++ l) := by
    intro l
    induction l with
    | nil => intro acc; simp
    | cons a l ih =>
      intro acc
      rw [List.foldl_cons]
      refine (ih (stableInsert le acc a)).trans ?_
      refine (List.Perm.append_right l ((stableInsert_perm le acc a))).trans ?_
      exact List.perm_middle.symm
  simpa using aux l []

/-- `stableSort` preserves length. -/
theorem stableSort_length {α : Type} (le : α → α → Bool) (l : List α) :
    (stableSort le l).length = l.length :=
  (stableSort_perm le l).length_eq

/-- `stableSort` preserves membership. -/
theorem stableSort_mem {α : Type} (le : α → α → Bool) (l : List α) (x : α) :
    x ∈ stableSort le l ↔ x ∈ l :=
  (stableSort_perm le l).mem_iff

/-- `stableInsert` commutes with a pointwise rewrite that preserves the
comparator. -/
theorem stableInsert_map {α : Type} (le : α → α → Bool) (g : α → α)
    (hg : ∀ a b, le (g a) (g b) = le a b) (l : List α) (a : α) :
    stableInsert le (l.map g) (g a) = (stableInsert le l a).map g := by
  induction l with
  | nil => rfl
  | cons b bs ih =>
    rw [List.map_cons]
    rw [show stableInsert le (g b :: List.map g bs) (g a) =
        if le (g b) (g a) then g b :: stableInsert le (List.map g bs) (g a)
        else g a :: g b :: List.map g bs from rfl]
    rw [show stableInsert le (b :: bs) a =
        if le b a then b :: stableInsert le bs a else a :: b :: bs from rfl]
    rw [hg]
    split
    · rw [ih]
      rfl
    · rfl

/-- `stableSort` commutes with a pointwise rewrite that preserves the
comparator. -/
theorem stableSort_map {α : Type} (le : α → α → Bool) (g : α → α)
    (hg : ∀ a b, le (g a) (g b) = le a b) (l : List α) :
    stableSort le (l.map g) = (stableSort le l).map g := by
  have aux : ∀ (l acc : List α),
      (l.map g).foldl (stableInsert le) (acc.map g) =
        (l.foldl (stableInsert le) acc).map g := by
    intro l
    induction l with
    | nil => intro acc; rfl
    | cons a l ih =>
      intro acc
      rw [List.map_cons, List.foldl_cons, List.foldl_cons,
        stableInsert_map le g hg, ih]
  simpa using aux l []

/-- `stableSort` output is sorted when the comparator relation is total and
transitive. -/
theorem stableSort_pairwise {α : Type} (le : α → α → Bool)
    (htotal : ∀ a b, le a b = true ∨ le b a = true)
    (htrans : ∀ a b c, le a b = true → le b c = true → le a c = true)
    (l : List α) :
    (stableSort le l).Pairwise (fun a b => le a b = true) := by
  have hins : ∀ (acc : List α) (a : α),
      acc.Pairwise (fun a b => le a b = true) →
      (stableInsert le acc a).Pairwise (fun a b => le a b = true) := by
    intro acc
    induction acc with
    | nil => intro a _; simp [stableInsert]
    | cons b bs ih =>
      intro a hp
      rw [List.pairwise_cons] at hp
      unfold stableInsert
      split
      · rename_i hba
        rw [List.pairwise_cons]
        refine ⟨?_, ih a hp.2⟩
        intro x hx
        rcases List.mem_cons.mp (((stableInsert_perm le bs a).mem_iff).mp hx) with rfl | hxbs
        · exact hba
        · exact hp.1 x hxbs
      · rename_i hba
        rw [List.pairwise_cons]
        rcases htotal a b with hab | hba'
        · refine ⟨?_, List.pairwise_cons.mpr hp⟩
          intro x hx
          rcases List.mem_cons.mp hx with rfl | hxbs
          · exact hab
          · exact htrans a b x hab (hp.1 x hxbs)
        · exact absurd hba' hba
  have aux : ∀ (l acc : List α),
      acc.Pairwise (fun a b => le a b = true) →
      (l.foldl (stableInsert le) acc).Pairwise (fun a b => le a b = true) := by
    intro l
    induction l with
    | nil => exact fun acc h => h
    | cons a l ih => exact fun acc h => ih _ (hins acc a h)
  exact aux l [] (by simp)

/-- `find?` on a list whose predicate holds at exactly one position returns
the element at that position. -/
theorem find?_eq_get_of_unique_flag {α : Type} (l : List α) (p : α → Bool)
    (i : Nat) (hi : i < l.length)
    (hflag : ∀ j (hj : j < l.length), p (l.get ⟨j, hj⟩) = true ↔ j = i) :
    l.find? p = some (l.get ⟨i, hi⟩) := by
  induction l generalizing i with
  | nil => cases hi
  | cons a l ih =>
    cases i with
    | zero =>
      have ha : p a = true := (hflag 0 (Nat.succ_pos _)).mpr rfl
      rw [List.find?_cons_of_pos _ ha]
      rfl
    | succ i =>
      have ha : p a = false := by
        have := hflag 0 (Nat.succ_pos _)
        simp only [List.get] at this
        rcases hpa : p a with _ | _
        · rfl
        · exact absurd (this.mp hpa) (Nat.succ_ne_zero i).symm
      rw [List.find?_cons_of_neg _ (by simp [ha])]
      refine ih i (Nat.lt_of_succ_lt_succ hi) ?_
      intro j hj
      have := hflag (j + 1) (Nat.succ_lt_succ hj)
      simpa using this

/-- `findIdx` of the key of the `i`-th element is `i` when the keys are
duplicate-free. -/
theorem findIdx_key_of_nodup {α β : Type} [BEq β] [LawfulBEq β]
    (l : List α) (f : α → β) (i : Nat) (hi : i < l.length)
    (hnodup : (l.map f).Nodup) :
    l.findIdx (fun x => f x == f (l.get ⟨i, hi⟩)) = i := by
  induction l generalizing i with
  | nil => cases hi
  | cons a l ih =>
    rw [List.map_cons, List.nodup_cons] at hnodup
    cases i with
    | zero =>
      rw [List.findIdx_cons]
      simp
    | succ i =>
      have hi' := Nat.lt_of_succ_lt_succ hi
      have hne : (f a == f (l.get ⟨i, hi'⟩)) = false := by
        rw [beq_eq_false_iff_ne]
        intro h
        exact hnodup.1 (h ▸ List.mem_map_of_mem f (l.get_mem i hi'))
      rw [List.findIdx_cons]
      have : ((a :: l).get ⟨i + 1, hi⟩) = l.get ⟨i, hi'⟩ := rfl
      rw [this, hne]
      simp only [cond_false]
      rw [ih i hi' hnodup.2]

/-! ### Characterization of advanceToNextPlayer -/

/-- The current index is in `[-1, length)`. -/
theorem advanceCurrentIndex_bounds (players : List SessionPlayer) :
    -1 ≤ advanceCurrentIndex players ∧
    advanceCurrentIndex players < (players.length : Int) ∨
    advanceCurrentIndex players = -1 := by
  unfold advanceCurrentIndex
  cases hfind : players.find? (fun p => p.isActiveTurn) with
  | none => exact Or.inr rfl
  | some cap =>
    have hmem : cap ∈ players := List.mem_of_find?_eq_some hfind
    have hidx : players.findIdx (fun p => p.userId == cap.userId) < players.length :=
      List.findIdx_lt_length_of_exists ⟨cap, hmem, by simp⟩
    refine Or.inl ⟨?_, ?_⟩
    · show (-1 : Int) ≤ ((players.findIdx (fun p => p.userId == cap.userId) : Nat) : Int)
      omega
    · show ((players.findIdx (fun p => p.userId == cap.userId) : Nat) : Int) <
        (players.length : Int)
      exact_mod_cast hidx

/-- The computed next index is always within bounds for a nonempty player
list. -/
theorem advance_nextIndex_lt (players : List SessionPlayer)
    (hlen : 0 < players.length) :
    (if decide (advanceCurrentIndex players + 1 ≥ (players.length : Int))
      then 0 else (advanceCurrentIndex players + 1).toNat) < players.length := by
  rcases advanceCurrentIndex_bounds players with ⟨h1, h2⟩ | hneg
  · split
    · exact hlen
    · rename_i hw
      simp only [decide_eq_true_eq, not_le] at hw
      omega
  · rw [hneg]
    split
    · exact hlen
    · simpa using hlen

/-- Session lookup after `updateSession` for an id-preserving update. -/
theorem getGameSession_updateSession (st : Storage) (sid : Nat)
    (f : GameSession → GameSession) (hf : ∀ v, (f v).id = v.id) :
    getGameSession (updateSession st sid f) sid =
      (getGameSession st sid).map f := by
  unfold getGameSession updateSession
  rw [find?_map_pred (p := fun (v : GameSession) => v.id == sid)
      (g := fun v => if (v.id == sid) = true then f v else v) st.sessions
      (by
        intro x
        dsimp only
        split
        · rename_i hx
          show ((f x).id == sid) = (x.id == sid)
          rw [hf]
        · rfl)]
  cases hfind : st.sessions.find? (fun v => v.id == sid) with
  | none => rfl
  | some v0 =>
    have hp : (v0.id == sid) = true :=
      List.find?_some (p := fun (v : GameSession) => v.id == sid) hfind
    rw [Option.map_some']
    rw [if_pos hp]
    rfl

/-- Full characterization of a successful `advanceToNextPlayer` call. -/
theorem advance_ok_result (st : Storage) (sid : Nat) (s : GameSession)
    (hs : getGameSession st sid = some s)
    (hlen : 0 < (sessionPlayersAll st sid).length) :
    ∃ np, (sessionPlayersAll st sid).get?
        (if decide (advanceCurrentIndex (sessionPlayersAll st sid) + 1 ≥
             ((sessionPlayersAll st sid).length : Int))
         then 0 else (advanceCurrentIndex (sessionPlayersAll st sid) + 1).toNat) =
        some np ∧
      advanceToNextPlayer st sid = some
        ({ (if decide (advanceCurrentIndex (sessionPlayersAll st sid) + 1 ≥
              ((sessionPlayersAll st sid).length : Int)) then
              updateSession st sid
                (fun v => { v with currentTurn := jsOr v.currentTurn 1 + 1 })
            else st) with
            sessionPlayers :=
              setKeyActiveTurn (clearActiveTurns
                (if decide (advanceCurrentIndex (sessionPlayersAll st sid) + 1 ≥
                    ((sessionPlayersAll st sid).length : Int)) then
                    updateSession st sid
                      (fun v => { v with currentTurn := jsOr v.currentTurn 1 + 1 })
                  else st).sessionPlayers sid) sid np.userId },
         np.userId,
         decide (advanceCurrentIndex (sessionPlayersAll st sid) + 1 ≥
           ((sessionPlayersAll st sid).length : Int))) := by
  have hget := List.get?_eq_get (advance_nextIndex_lt (sessionPlayersAll st sid) hlen)
  refine ⟨_, hget, ?_⟩
  unfold advanceToNextPlayer
  rw [hs]
  dsimp only
  rw [if_neg (Nat.pos_iff_ne_zero.mp hlen), hget]

/-- The sessions map after a successful advance: prep fields and id are
untouched; `currentTurn` is incremented exactly on wrap. -/
theorem advance_session_fields (st : Storage) (sid : Nat) (st' : Storage)
    (uid : String) (b : Bool) (s : GameSession)
    (h : advanceToNextPlayer st sid = some (st', uid, b))
    (hs : getGameSession st sid = some s) :
    ∃ s', getGameSession st' sid = some s' ∧ s'.id = s.id ∧
      s'.isPrepTurn = s.isPrepTurn ∧
      s'.currentPrepWordIndex = s.currentPrepWordIndex ∧
      s'.currentPrepWordTurnCount = s.currentPrepWordTurnCount ∧
      s'.currentTurn = (if b then jsOr s.currentTurn 1 + 1 else s.currentTurn) := by
  unfold advanceToNextPlayer at h
  rw [hs] at h
  dsimp only at h
  split at h
  · cases h
  · split at h
    · cases h
    · rename_i np hget
      rw [Option.some_inj, Prod.mk.injEq, Prod.mk.injEq] at h
      obtain ⟨h1, h2, h3⟩ := h
      subst h3
      rw [← h1]
      split
      · refine ⟨{ s with currentTurn := jsOr s.currentTurn 1 + 1 },
          ?_, rfl, rfl, rfl, rfl, rfl⟩
        show getGameSession (updateSession st sid _) sid = _
        rw [getGameSession_updateSession st sid _ (by intro v; rfl), hs]
        rfl
      · exact ⟨s, hs, rfl, rfl, rfl, rfl, rfl⟩

/-- The per-session (active) player lists have their lengths preserved by the
clear/set flag writes. -/
theorem getSessionPlayers_length_flagwrites (st : Storage) (sid : Nat)
    (st' : Storage) (sid2 : Nat) (uid : String)
    (hpl : st'.sessionPlayers =
      setKeyActiveTurn (clearActiveTurns st.sessionPlayers sid2) sid2 uid) :
    (getSessionPlayers st' sid).length = (getSessionPlayers st sid).length := by
  unfold getSessionPlayers
  rw [hpl]
  unfold setKeyActiveTurn clearActiveTurns
  rw [List.map_map, stableSort_length, stableSort_length]
  rw [filter_map_pred (p := fun (p : SessionPlayer) => p.sessionId == sid && p.isActive)
      (g := ((fun p => if playerKeyEq p sid2 uid = true then
          { p with isActiveTurn := true } else p) ∘
        (fun p => if (p.sessionId == sid2) = true then
          { p with isActiveTurn := false } else p)))
      st.sessionPlayers
      (by
        intro x
        dsimp only [Function.comp]
        by_cases h1 : (x.sessionId == sid2) = true
        · rw [if_pos h1]
          by_cases h2 : playerKeyEq { x with isActiveTurn := false } sid2 uid = true
          · rw [if_pos h2]
          · rw [if_neg h2]
        · rw [if_neg h1]
          by_cases h2 : playerKeyEq x sid2 uid = true
          · rw [if_pos h2]
          · rw [if_neg h2])]
  rw [List.length_map]

/-- `updateSession` leaves the players untouched, so the per-session player
lists are unchanged. -/
theorem getSessionPlayers_updateSession (st : Storage) (sid sid2 : Nat)
    (f : GameSession → GameSession) :
    getSessionPlayers (updateSession st sid2 f) sid = getSessionPlayers st sid := rfl

/-- Session lookup after `updateEncounter`. -/
theorem getGameSession_updateEncounter (st : Storage) (sid : Nat)
    (d : EncounterData) (s : GameSession) (hs : getGameSession st sid = some s) :
    ∃ s', getGameSession (updateEncounter st sid d) sid = some s' ∧
      s'.id = s.id ∧
      s'.isPrepTurn = (match d.isPrepTurn with | some v => v | none => s.isPrepTurn) ∧
      s'.currentPrepWordIndex =
        (match d.currentPrepWordIndex with | some v => v | none => s.currentPrepWordIndex) ∧
      s'.currentPrepWordTurnCount =
        (match d.currentPrepWordTurnCount with
          | some v => v | none => s.currentPrepWordTurnCount) ∧
      s'.currentTurn = s.currentTurn := by
  unfold updateEncounter
  rw [getGameSession_updateSession st sid _ (by intro v; rfl), hs]
  exact ⟨_, rfl, rfl, rfl, rfl, rfl, rfl⟩

/-! ### C4: the prep phase takes player-count × 3 advances -/

/-- A pointwise weaker filter predicate keeps at most as many elements. -/
theorem length_filter_mono {α : Type} (p q : α → Bool) (l : List α)
    (h : ∀ a, p a = true → q a = true) :
    (l.filter p).length ≤ (l.filter q).length := by
  induction l with
  | nil => simp
  | cons a l ih =>
    rw [List.filter_cons, List.filter_cons]
    by_cases hp : p a = true
    · rw [if_pos hp, if_pos (h a hp)]
      simpa using ih
    · rw [if_neg hp]
      split
      · simp only [List.length_cons]
        exact le_trans ih (Nat.le_succ _)
      · exact ih

/-- A session with at least one active player has a nonempty
`advanceToNextPlayer` player list. -/
theorem sessionPlayersAll_pos (st : Storage) (sid : Nat)
    (h : 0 < (getSessionPlayers st sid).length) :
    0 < (sessionPlayersAll st sid).length := by
  unfold getSessionPlayers sessionPlayersAll at *
  rw [stableSort_length] at *
  refine lt_of_lt_of_le h (length_filter_mono _ _ _ ?_)
  intro a ha
  exact (Bool.and_eq_true ..).mp ha |>.1

/-- One `prep/next-word` call: it succeeds, stores the counters computed by
`prepCounterStep` from the session's previous counters, and preserves the
active-player count. -/
theorem prepNextWord_step (st : Storage) (sid : Nat) (uid : String)
    (s : GameSession) (n : Nat)
    (huid : uid ≠ "") (hs : getGameSession st sid = some s)
    (hn : (getSessionPlayers st sid).length = n) (hn1 : 1 ≤ n) :
    ∃ st2 s2, prepNextWordRoute st sid uid =
        .ok (st2,
          (prepCounterStep n s.currentPrepWordTurnCount s.currentPrepWordIndex).2.1,
          (prepCounterStep n s.currentPrepWordTurnCount s.currentPrepWordIndex).2.2,
          (prepCounterStep n s.currentPrepWordTurnCount s.currentPrepWordIndex).1) ∧
      getGameSession st2 sid = some s2 ∧
      s2.currentPrepWordTurnCount =
        (prepCounterStep n s.currentPrepWordTurnCount s.currentPrepWordIndex).1 ∧
      s2.currentPrepWordIndex =
        (prepCounterStep n s.currentPrepWordTurnCount s.currentPrepWordIndex).2.1 ∧
      s2.isPrepTurn =
        (prepCounterStep n s.currentPrepWordTurnCount s.currentPrepWordIndex).2.2 ∧
      (getSessionPlayers st2 sid).length = n := by
  unfold prepNextWordRoute
  rw [if_neg huid, hs]
  dsimp only
  rw [hn, if_neg (by omega), jsOr_zero, jsOr_zero]
  rcases hstep : prepCounterStep n s.currentPrepWordTurnCount s.currentPrepWordIndex
    with ⟨c2, i2, prep⟩
  dsimp only
  obtain ⟨s1, hs1, -, hp1, hi1, hc1, -⟩ :=
    getGameSession_updateEncounter st sid
      { sentence := strOr s.encounterSentence "",
        threat := none, difficulty := none, encLength := none,
        noun := none, verb := none, adjective := none,
        isPrepTurn := some prep, currentPrepWordIndex := some i2,
        currentPrepWordTurnCount := some c2 } s hs
  have hn1len : (getSessionPlayers (updateEncounter st sid
      { sentence := strOr s.encounterSentence "",
        threat := none, difficulty := none, encLength := none,
        noun := none, verb := none, adjective := none,
        isPrepTurn := some prep, currentPrepWordIndex := some i2,
        currentPrepWordTurnCount := some c2 }) sid).length = n := hn
  cases prep with
  | true =>
    dsimp only at hp1 hi1 hc1 ⊢
    have hpos : 0 < (sessionPlayersAll (updateEncounter st sid
        { sentence := strOr s.encounterSentence "",
          threat := none, difficulty := none, encLength := none,
          noun := none, verb := none, adjective := none,
          isPrepTurn := some true, currentPrepWordIndex := some i2,
          currentPrepWordTurnCount := some c2 }) sid).length :=
      sessionPlayersAll_pos _ _ (by omega)
    obtain ⟨np, hget, hadv⟩ := advance_ok_result _ sid s1 hs1 hpos
    rw [hadv]
    dsimp only
    obtain ⟨s2, hs2, -, hp2, hi2, hc2, -⟩ :=
      advance_session_fields _ sid _ _ _ s1 hadv hs1
    refine ⟨_, s2, rfl, hs2, ?_, ?_, ?_, ?_⟩
    · rw [hc2, hc1]
    · rw [hi2, hi1]
    · rw [hp2, hp1]
    · have hshape := advance_players_shape _ sid _ _ _ hadv
      rw [getSessionPlayers_length_flagwrites _ sid _ sid np.userId hshape]
      exact hn1len
  | false =>
    dsimp only at hp1 hi1 hc1 ⊢
    cases hfp : (getSessionPlayers (updateEncounter st sid
        { sentence := strOr s.encounterSentence "",
          threat := none, difficulty := none, encLength := none,
          noun := none, verb := none, adjective := none,
          isPrepTurn := some false, currentPrepWordIndex := some i2,
          currentPrepWordTurnCount := some c2 }) sid).find?
          (fun p => p.turnOrder == some 0) with
    | none =>
      exact ⟨_, s1, rfl, hs1, hc1, hi1, hp1, hn1len⟩
    | some fp =>
      refine ⟨_, s1, rfl, hs1, hc1, hi1, hp1, ?_⟩
      rw [getSessionPlayers_length_flagwrites _ sid _ sid fp.userId rfl]
      exact hn1len

/-- Iterated `prep/next-word` calls. -/
def prepIter (sid : Nat) (uid : String) : Nat → Storage → Option Storage
  | 0, st => some st
  | k + 1, st =>
    match prepNextWordRoute st sid uid with
    | .ok (st', _, _, _) => prepIter sid uid k st'
    | .error _ => none

/-- The pure iterated counter transition of the prep state machine. -/
def prepStateIter (n : Nat) : Nat → Int × Int × Bool → Int × Int × Bool
  | 0, x => x
  | k + 1, x => prepStateIter n k (prepCounterStep n x.1 x.2.1)

/-- Iterating the route tracks the pure counter iteration. -/
theorem prepIter_ok (sid : Nat) (uid : String) (n : Nat)
    (huid : uid ≠ "") (hn1 : 1 ≤ n) :
    ∀ (k : Nat) (st : Storage) (s : GameSession),
      getGameSession st sid = some s →
      (getSessionPlayers st sid).length = n →
      ∃ stk sk, prepIter sid uid k st = some stk ∧
        getGameSession stk sid = some sk ∧
        (sk.currentPrepWordTurnCount, sk.currentPrepWordIndex, sk.isPrepTurn) =
          prepStateIter n k
            (s.currentPrepWordTurnCount, s.currentPrepWordIndex, s.isPrepTurn) ∧
        (getSessionPlayers stk sid).length = n := by
  intro k
  induction k with
  | zero => exact fun st s hs hn => ⟨st, s, rfl, hs, rfl, hn⟩
  | succ k ih =>
    intro st s hs hn
    obtain ⟨st2, s2, hroute, hs2, hc, hi, hp, hlen⟩ :=
      prepNextWord_step st sid uid s n huid hs hn hn1
    obtain ⟨stk, sk, hiter, hsk, htriple, hlenk⟩ := ih st2 s2 hs2 hlen
    refine ⟨stk, sk, ?_, hsk, ?_, hlenk⟩
    · show (match prepNextWordRoute st sid uid with
        | .ok (st', _, _, _) => prepIter sid uid k st'
        | .error _ => none) = some stk
      rw [hroute]
      exact hiter
    · have h2 : (s2.currentPrepWordTurnCount, s2.currentPrepWordIndex, s2.isPrepTurn) =
          prepCounterStep n s.currentPrepWordTurnCount s.currentPrepWordIndex := by
        rw [hc, hi, hp]
      calc (sk.currentPrepWordTurnCount, sk.currentPrepWordIndex, sk.isPrepTurn)
          = prepStateIter n k
              (s2.currentPrepWordTurnCount, s2.currentPrepWordIndex, s2.isPrepTurn) :=
            htriple
        _ = prepStateIter n k
              (prepCounterStep n s.currentPrepWordTurnCount s.currentPrepWordIndex) := by
            rw [h2]
        _ = prepStateIter n (k + 1)
              (s.currentPrepWordTurnCount, s.currentPrepWordIndex, s.isPrepTurn) := rfl

/-- C4.  For every session that has just entered the prep phase
(`isPrepTurn = true`, `currentPrepWordIndex = 0`,
`currentPrepWordTurnCount = 0`) with exactly 3 active players, all of the
first 9 `prep/next-word` calls succeed; after each of the first 8 the session
is still in the prep phase, and after the 9th `isPrepTurn = false` with
`currentPrepWordIndex = 0`. -/
theorem c4_prep_nine_advances (st : Storage) (sid : Nat) (uid : String)
    (s : GameSession)
    (huid : uid ≠ "") (hs : getGameSession st sid = some s)
    (hprep : s.isPrepTurn = true)
    (hc0 : s.currentPrepWordTurnCount = 0) (hi0 : s.currentPrepWordIndex = 0)
    (hn : (getSessionPlayers st sid).length = 3) :
    ∀ k, k ≤ 9 → ∃ stk sk, prepIter sid uid k st = some stk ∧
      getGameSession stk sid = some sk ∧
      (k < 9 → sk.isPrepTurn = true) ∧
      (k = 9 → sk.isPrepTurn = false ∧ sk.currentPrepWordIndex = 0) := by
  intro k hk
  obtain ⟨stk, sk, hiter, hsk, htriple, -⟩ :=
    prepIter_ok sid uid 3 huid (by omega) k st s hs hn
  rw [hc0, hi0, hprep] at htriple
  have hflag : sk.isPrepTurn = (prepStateIter 3 k ((0 : Int), (0 : Int), true)).2.2 :=
    congrArg (fun t => t.2.2) htriple
  have hidx : sk.currentPrepWordIndex =
      (prepStateIter 3 k ((0 : Int), (0 : Int), true)).2.1 :=
    congrArg (fun t => t.2.1) htriple
  refine ⟨stk, sk, hiter, hsk, ?_, ?_⟩
  · intro hk9
    rw [hflag]
    interval_cases k <;> decide
  · intro hk9
    subst hk9
    rw [hflag, hidx]
    exact ⟨by decide, by decide⟩

/-- The session of the C4 witness: freshly entered prep phase. -/
def c4WSession : GameSession :=
  { id := 1, code := "C", name := "S", gmId := "gm",
    encounterSentence := some "x", encounterNoun := some "Ba",
    encounterVerb := some "Li", encounterAdjective := some "Po",
    encounterThreat := some 1, encounterDifficulty := some 1,
    encounterLength := some 1, isPrepTurn := true, currentPrepWordIndex := 0,
    currentPrepWordTurnCount := 0, vowels := [], currentTurn := 1,
    isActive := true }

/-- The storage of the C4 witness: the prep-phase session with three active
players. -/
def c4WState : Storage :=
  { sessions := [c4WSession],
    sessionPlayers :=
      [{ sessionId := 1, userId := "p1", playerName := none, nerve := 8,
         maxNerve := 8, turnOrder := some 0, isActive := true,
         isActiveTurn := true, joinedAt := 0 },
       { sessionId := 1, userId := "p2", playerName := none, nerve := 7,
         maxNerve := 8, turnOrder := some 1, isActive := true,
         isActiveTurn := false, joinedAt := 1 },
       { sessionId := 1, userId := "p3", playerName := none, nerve := 6,
         maxNerve := 8, turnOrder := some 2, isActive := true,
         isActiveTurn := false, joinedAt := 2 }],
    words := [], wordOwners := [], wordCounter := 1 }

/-- C4 witness: with 3 active players, nine `prep/next-word` calls starting
from the fresh prep phase end it with `isPrepTurn = false` and the word index
reset to 0. -/
theorem c4_prep_nine_advances_witness :
    ("u" : String) ≠ "" ∧
    (getSessionPlayers c4WState 1).length = 3 ∧
    c4WSession.isPrepTurn = true ∧
    ∃ st9 s9, prepIter 1 "u" 9 c4WState = some st9 ∧
      getGameSession st9 1 = some s9 ∧
      s9.isPrepTurn = false ∧ s9.currentPrepWordIndex = 0 := by
  refine ⟨by decide, by decide, by decide, ?_⟩
  obtain ⟨st9, s9, hiter, hs9, -, hfin⟩ :=
    c4_prep_nine_advances c4WState 1 "u" c4WSession (by decide) (by decide)
      (by decide) (by decide) (by decide) (by decide) 9 (le_refl 9)
  obtain ⟨hf, hi⟩ := hfin rfl
  exact ⟨st9, s9, hiter, hs9, hf, hi⟩

/-! ### C5: a full cycle of advanceToNextPlayer -/

/-- `get` of a mapped list is the map of the `get`. -/
theorem get_map_eq {α β : Type} (f : α → β) (l : List α) (j : Nat)
    (h1 : j < (l.map f).length) (h2 : j < l.length) :
    (l.map f).get ⟨j, h1⟩ = f (l.get ⟨j, h2⟩) := by
  have e1 := List.get?_eq_get h1
  rw [List.get?_map, List.get?_eq_get h2] at e1
  exact (Option.some_inj.mp e1).symm

/-- `get` at the same position of equal lists agrees. -/
theorem get_of_eq_list {α : Type} {l l' : List α} (h : l = l') (j : Nat)
    (h1 : j < l.length) (h2 : j < l'.length) : l.get ⟨j, h1⟩ = l'.get ⟨j, h2⟩ := by
  cases h; rfl

/-- The combined effect on one player record of the clear-then-set writes of
`setActiveTurn` (as performed at the end of `advanceToNextPlayer`): within the
session, `isActiveTurn` becomes `userId == uid`; other sessions' players are
untouched. -/
def activeFlagUpd (sid : Nat) (uid : String) (p : SessionPlayer) : SessionPlayer :=
  if p.sessionId == sid then { p with isActiveTurn := p.userId == uid } else p

/-- Every field of a player other than `isActiveTurn` is untouched by
`activeFlagUpd`. -/
theorem activeFlagUpd_fields (sid : Nat) (uid : String) (p : SessionPlayer) :
    (activeFlagUpd sid uid p).sessionId = p.sessionId ∧
    (activeFlagUpd sid uid p).userId = p.userId ∧
    (activeFlagUpd sid uid p).turnOrder = p.turnOrder := by
  unfold activeFlagUpd; split <;> exact ⟨rfl, rfl, rfl⟩

/-- Clearing the session's flags and then setting one key equals the pointwise
flag update `activeFlagUpd`. -/
theorem setKey_clear_eq_map (l : List SessionPlayer) (sid : Nat) (uid : String) :
    setKeyActiveTurn (clearActiveTurns l sid) sid uid =
      l.map (activeFlagUpd sid uid) := by
  unfold setKeyActiveTurn clearActiveTurns activeFlagUpd
  rw [List.map_map]
  refine List.map_congr_left ?_
  intro p _
  dsimp only [Function.comp]
  by_cases hs : (p.sessionId == sid) = true
  · rw [if_pos hs, if_pos hs]
    cases hu : (p.userId == uid)
    · rw [if_neg (by simp [playerKeyEq, hu])]
    · rw [if_pos (by simp [playerKeyEq, hs, hu])]
  · rw [if_neg hs, if_neg hs, if_neg (by simp [playerKeyEq, hs])]

/-- `sessionPlayersAll` after the clear/set flag writes of an advance step is
the pointwise flag update of the previous ordered list. -/
theorem sessionPlayersAll_flagmap (st st2 : Storage) (sid : Nat) (uid : String)
    (hpl : st2.sessionPlayers =
      setKeyActiveTurn (clearActiveTurns st.sessionPlayers sid) sid uid) :
    sessionPlayersAll st2 sid =
      (sessionPlayersAll st sid).map (activeFlagUpd sid uid) := by
  unfold sessionPlayersAll
  rw [hpl, setKey_clear_eq_map]
  rw [filter_map_pred (g := activeFlagUpd sid uid)
      (p := fun (p : SessionPlayer) => p.sessionId == sid) _
      (by
        intro x
        show ((activeFlagUpd sid uid x).sessionId == sid) = (x.sessionId == sid)
        rw [(activeFlagUpd_fields sid uid x).1])]
  exact stableSort_map _ (activeFlagUpd sid uid)
    (by
      intro a b
      show decide (turnOrderCmp (activeFlagUpd sid uid a)
          (activeFlagUpd sid uid b) ≤ 0) = decide (turnOrderCmp a b ≤ 0)
      unfold turnOrderCmp
      rw [(activeFlagUpd_fields sid uid a).2.2, (activeFlagUpd_fields sid uid b).2.2]) _

/-- Every player of `sessionPlayersAll st sid` belongs to session `sid`. -/
theorem sessionPlayersAll_sid (st : Storage) (sid : Nat) :
    ∀ q ∈ sessionPlayersAll st sid, q.sessionId = sid := by
  intro q hq
  unfold sessionPlayersAll at hq
  rw [stableSort_mem] at hq
  have := (List.mem_filter.mp hq).2
  simpa using this

/-- `x || d` keeps a nonzero `x`. -/
theorem jsOr_of_ne (x d : Int) (hx : x ≠ 0) : jsOr x d = x := by
  unfold jsOr; rw [if_neg hx]

/-- Readiness state for an advance step of session `sid`: the session exists
with `currentTurn = t`, the ordered player list (`sessionPlayersAll`, the list
`advanceToNextPlayer` works on) projects to the user-id list `uids`, and
exactly the player at position `i` carries the active-turn flag. -/
def AdvReady (sid : Nat) (st : Storage) (uids : List String) (i : Nat) (t : Int) :
    Prop :=
  (∃ s, getGameSession st sid = some s ∧ s.currentTurn = t) ∧
  (sessionPlayersAll st sid).map (fun p => p.userId) = uids ∧
  i < uids.length ∧
  ∀ j (hj : j < (sessionPlayersAll st sid).length),
    ((sessionPlayersAll st sid).get ⟨j, hj⟩).isActiveTurn = true ↔ j = i

/-- A storage whose player table is the clear/set rewrite of `st`'s at the
user id sitting at position `i2`, and whose session has turn counter `t2`,
is ready at position `i2`. -/
theorem AdvReady_of_flagmap (sid : Nat) (st st2 : Storage) (uids : List String)
    (i2 : Nat) (t2 : Int) (hi2lt : i2 < uids.length)
    (hmap : (sessionPlayersAll st sid).map (fun p => p.userId) = uids)
    (huids : uids.Nodup)
    (hpl : st2.sessionPlayers =
      setKeyActiveTurn (clearActiveTurns st.sessionPlayers sid) sid
        (uids.get ⟨i2, hi2lt⟩))
    (hsess2 : ∃ s2, getGameSession st2 sid = some s2 ∧ s2.currentTurn = t2) :
    AdvReady sid st2 uids i2 t2 := by
  have hq2 : sessionPlayersAll st2 sid =
      (sessionPlayersAll st sid).map (activeFlagUpd sid (uids.get ⟨i2, hi2lt⟩)) :=
    sessionPlayersAll_flagmap st st2 sid _ hpl
  have hi2q : i2 < (sessionPlayersAll st sid).length := by
    have h := hi2lt
    rw [← hmap, List.length_map] at h
    exact h
  have huid' : uids.get ⟨i2, hi2lt⟩ =
      ((sessionPlayersAll st sid).get ⟨i2, hi2q⟩).userId := by
    rw [get_of_eq_list hmap.symm i2 hi2lt (by rw [List.length_map]; exact hi2q)]
    exact get_map_eq _ _ i2 _ hi2q
  refine ⟨hsess2, ?_, hi2lt, ?_⟩
  · rw [hq2, List.map_map]
    rw [show ((fun p : SessionPlayer => p.userId) ∘
        activeFlagUpd sid (uids.get ⟨i2, hi2lt⟩)) =
        (fun p : SessionPlayer => p.userId) from
      funext (fun p => (activeFlagUpd_fields sid _ p).2.1)]
    exact hmap
  · intro j hj
    have hjq : j < (sessionPlayersAll st sid).length := by
      have h := hj
      rw [hq2, List.length_map] at h
      exact h
    have hget2 : (sessionPlayersAll st2 sid).get ⟨j, hj⟩ =
        activeFlagUpd sid (uids.get ⟨i2, hi2lt⟩)
          ((sessionPlayersAll st sid).get ⟨j, hjq⟩) := by
      rw [get_of_eq_list hq2 j hj (by rw [List.length_map]; exact hjq)]
      exact get_map_eq _ _ j _ hjq
    have hsidj : ((sessionPlayersAll st sid).get ⟨j, hjq⟩).sessionId = sid :=
      sessionPlayersAll_sid st sid _ (List.get_mem _ j hjq)
    rw [hget2]
    have hflag : (activeFlagUpd sid (uids.get ⟨i2, hi2lt⟩)
        ((sessionPlayersAll st sid).get ⟨j, hjq⟩)).isActiveTurn =
        (((sessionPlayersAll st sid).get ⟨j, hjq⟩).userId ==
          uids.get ⟨i2, hi2lt⟩) := by
      unfold activeFlagUpd
      rw [if_pos (by rw [hsidj]; exact beq_self_eq_true sid)]
    rw [hflag, huid']
    have hnodupm : ((sessionPlayersAll st sid).map
        (fun p : SessionPlayer => p.userId)).Nodup := by
      rw [hmap]; exact huids
    constructor
    · intro hbeq
      have heq : ((sessionPlayersAll st sid).get ⟨j, hjq⟩).userId =
          ((sessionPlayersAll st sid).get ⟨i2, hi2q⟩).userId := by
        simpa using hbeq
      have hjm : j < ((sessionPlayersAll st sid).map
          (fun p : SessionPlayer => p.userId)).length := by
        rw [List.length_map]; exact hjq
      have hi2m : i2 < ((sessionPlayersAll st sid).map
          (fun p : SessionPlayer => p.userId)).length := by
        rw [List.length_map]; exact hi2q
      have hgeq : ((sessionPlayersAll st sid).map
            (fun p : SessionPlayer => p.userId)).get ⟨j, hjm⟩ =
          ((sessionPlayersAll st sid).map
            (fun p : SessionPlayer => p.userId)).get ⟨i2, hi2m⟩ := by
        rw [get_map_eq _ _ j hjm hjq, get_map_eq _ _ i2 hi2m hi2q]
        exact heq
      have := hnodupm.get_inj_iff.mp hgeq
      exact Fin.mk.injEq _ _ _ _ ▸ this
    · intro hji
      subst hji
      simp

/-- One `advanceToNextPlayer` call from a ready state: it succeeds, reports
`turnIncremented` exactly when the active position was the last one, and
yields a ready state at the next (cyclic) position, with `currentTurn`
incremented exactly on the wrap. -/
theorem advance_step (sid : Nat) (st : Storage) (uids : List String) (i : Nat)
    (t : Int) (huids : uids.Nodup) (ht : 1 ≤ t)
    (hready : AdvReady sid st uids i t) :
    ∃ st' uid',
      advanceToNextPlayer st sid = some (st', uid', decide (i + 1 = uids.length)) ∧
      AdvReady sid st' uids (if i + 1 = uids.length then 0 else i + 1)
        (if i + 1 = uids.length then t + 1 else t) := by
  obtain ⟨⟨s, hsess, hturn⟩, hmap, hi, hflags⟩ := hready
  have hlenq : (sessionPlayersAll st sid).length = uids.length := by
    rw [← hmap, List.length_map]
  have hi' : i < (sessionPlayersAll st sid).length := by omega
  have hlen0 : 0 < (sessionPlayersAll st sid).length := by omega
  have hnodupq : ((sessionPlayersAll st sid).map
      (fun p : SessionPlayer => p.userId)).Nodup := by
    rw [hmap]; exact huids
  have hfind : (sessionPlayersAll st sid).find? (fun p => p.isActiveTurn) =
      some ((sessionPlayersAll st sid).get ⟨i, hi'⟩) :=
    find?_eq_get_of_unique_flag _ _ i hi' hflags
  have hci : advanceCurrentIndex (sessionPlayersAll st sid) = (i : Int) := by
    unfold advanceCurrentIndex
    rw [hfind]
    exact_mod_cast congrArg Int.ofNat
      (findIdx_key_of_nodup _ (fun p : SessionPlayer => p.userId) i hi' hnodupq)
  have hwr : decide (advanceCurrentIndex (sessionPlayersAll st sid) + 1 ≥
      ((sessionPlayersAll st sid).length : Int)) = decide (i + 1 = uids.length) := by
    rw [hci, hlenq, decide_eq_decide]
    omega
  obtain ⟨np, hget, hadv⟩ := advance_ok_result st sid s hsess hlen0
  rw [hwr] at hadv hget
  have hjlt : (if i + 1 = uids.length then 0 else i + 1) <
      (sessionPlayersAll st sid).length := by
    by_cases hc : i + 1 = uids.length
    · rw [if_pos hc]; omega
    · rw [if_neg hc]; omega
  have hni : (if decide (i + 1 = uids.length) = true then 0
      else (advanceCurrentIndex (sessionPlayersAll st sid) + 1).toNat) =
      (if i + 1 = uids.length then 0 else i + 1) := by
    rw [hci]
    by_cases hc : i + 1 = uids.length
    · rw [if_pos (by simpa using hc), if_pos hc]
    · rw [if_neg (by simpa using hc), if_neg hc]
      omega
  rw [hni] at hget
  have hnp : np = (sessionPlayersAll st sid).get
      ⟨if i + 1 = uids.length then 0 else i + 1, hjlt⟩ := by
    rw [List.get?_eq_get hjlt] at hget
    exact (Option.some_inj.mp hget).symm
  have hjltu : (if i + 1 = uids.length then 0 else i + 1) < uids.length := by
    omega
  have hnpuid : np.userId =
      uids.get ⟨if i + 1 = uids.length then 0 else i + 1, hjltu⟩ := by
    rw [hnp, get_of_eq_list hmap.symm _ hjltu (by rw [List.length_map]; exact hjlt)]
    exact (get_map_eq (fun p : SessionPlayer => p.userId) _ _ _ hjlt).symm
  refine ⟨_, np.userId, hadv, ?_⟩
  have hstmid : (if decide (i + 1 = uids.length) = true
      then updateSession st sid
        (fun v => { v with currentTurn := jsOr v.currentTurn 1 + 1 })
      else st).sessionPlayers = st.sessionPlayers := by
    split <;> rfl
  refine AdvReady_of_flagmap sid st _ uids _ _ hjltu hmap huids ?_ ?_
  · show setKeyActiveTurn (clearActiveTurns (if decide (i + 1 = uids.length) = true
        then updateSession st sid
          (fun v => { v with currentTurn := jsOr v.currentTurn 1 + 1 })
        else st).sessionPlayers sid) sid np.userId = _
    rw [hstmid, hnpuid]
  · show ∃ s2, getGameSession (if decide (i + 1 = uids.length) = true
        then updateSession st sid
          (fun v => { v with currentTurn := jsOr v.currentTurn 1 + 1 })
        else st) sid = some s2 ∧ s2.currentTurn =
        (if i + 1 = uids.length then t + 1 else t)
    by_cases hc : i + 1 = uids.length
    · rw [if_pos (by simpa using hc), if_pos hc]
      refine ⟨{ s with currentTurn := jsOr s.currentTurn 1 + 1 }, ?_, ?_⟩
      · rw [getGameSession_updateSession st sid _ (by intro v; rfl), hsess]
        rfl
      · show jsOr s.currentTurn 1 + 1 = t + 1
        rw [hturn, jsOr_of_ne t 1 (by omega)]
    · rw [if_neg (by simpa using hc), if_neg hc]
      exact ⟨s, hsess, hturn⟩

/-- `k` successive `advanceToNextPlayer` calls, collecting each call's
`turnIncremented` report (`none` as soon as one call throws). -/
def advanceIterB (sid : Nat) : Nat → Storage → Option (Storage × List Bool)
  | 0, st => some (st, [])
  | k + 1, st =>
    match advanceToNextPlayer st sid with
    | none => none
    | some (st', _, inc) =>
      match advanceIterB sid k st' with
      | none => none
      | some (stf, rs) => some (stf, inc :: rs)

/-- Iterating `advanceToNextPlayer` for `k ≤ N` steps from a ready state at
position `i`: every call succeeds, the `j`-th call reports `turnIncremented`
exactly when it crosses the end of the order (`i + j + 1 = N`), and the final
state is ready at the cyclic position `i + k`, with the turn counter bumped
exactly when the cycle wrapped. -/
theorem advance_iter (sid : Nat) (uids : List String) (huids : uids.Nodup) :
    ∀ (k : Nat), k ≤ uids.length →
    ∀ (st : Storage) (i : Nat) (t : Int), 1 ≤ t → AdvReady sid st uids i t →
    ∃ stf rs, advanceIterB sid k st = some (stf, rs) ∧ rs.length = k ∧
      (∀ j, j < k → rs.getD j false = decide (i + j + 1 = uids.length)) ∧
      AdvReady sid stf uids
        (if i + k < uids.length then i + k else i + k - uids.length)
        (if i + k < uids.length then t else t + 1) := by
  intro k
  induction k with
  | zero =>
    intro _ st i t ht hready
    have hi : i < uids.length := hready.2.2.1
    refine ⟨st, [], rfl, rfl, fun j hj => absurd hj (Nat.not_lt_zero j), ?_⟩
    rw [show (if i + 0 < uids.length then i + 0 else i + 0 - uids.length) = i from
        by rw [if_pos (by omega)]; omega,
      show (if i + 0 < uids.length then t else t + 1) = t from
        by rw [if_pos (by omega)]]
    exact hready
  | succ k ih =>
    intro hk1 st i t ht hready
    obtain ⟨st', uid', hadv, hready'⟩ := advance_step sid st uids i t huids ht hready
    have hi : i < uids.length := hready.2.2.1
    have hk : k ≤ uids.length := by omega
    by_cases hc : i + 1 = uids.length
    · rw [if_pos hc, if_pos hc] at hready'
      obtain ⟨stf, rs, hiter, hlen, hflags, hfinal⟩ :=
        ih hk st' 0 (t + 1) (by omega) hready'
      refine ⟨stf, decide (i + 1 = uids.length) :: rs, ?_, by simp [hlen], ?_, ?_⟩
      · unfold advanceIterB
        rw [hadv]
        dsimp only
        rw [hiter]
      · intro j hj
        cases j with
        | zero => rfl
        | succ j =>
          have hj' : j < k := by omega
          rw [show (decide (i + 1 = uids.length) :: rs).getD (j + 1) false =
              rs.getD j false from rfl, hflags j hj', decide_eq_decide]
          omega
      · rw [show (if 0 + k < uids.length then 0 + k else 0 + k - uids.length) = k from
            by rw [if_pos (by omega)]; omega,
          show (if 0 + k < uids.length then t + 1 else t + 1 + 1) = t + 1 from
            by rw [if_pos (by omega)]] at hfinal
        rw [show (if i + (k + 1) < uids.length then i + (k + 1)
              else i + (k + 1) - uids.length) = k from
            by rw [if_neg (by omega)]; omega,
          show (if i + (k + 1) < uids.length then t else t + 1) = t + 1 from
            by rw [if_neg (by omega)]]
        exact hfinal
    · rw [if_neg hc, if_neg hc] at hready'
      obtain ⟨stf, rs, hiter, hlen, hflags, hfinal⟩ :=
        ih hk st' (i + 1) t ht hready'
      refine ⟨stf, decide (i + 1 = uids.length) :: rs, ?_, by simp [hlen], ?_, ?_⟩
      · unfold advanceIterB
        rw [hadv]
        dsimp only
        rw [hiter]
      · intro j hj
        cases j with
        | zero => rfl
        | succ j =>
          have hj' : j < k := by omega
          rw [show (decide (i + 1 = uids.length) :: rs).getD (j + 1) false =
              rs.getD j false from rfl, hflags j hj', decide_eq_decide]
          omega
      · rw [show i + 1 + k = i + (k + 1) from by omega] at hfinal
        exact hfinal

/-- C5: for a session with `N` active players (`N ≥ 1`) holding dense
distinct `turnOrder` values and exactly one player with the active-turn flag
(at ordered position `i`), `N` successive `advanceToNextPlayer` calls all
succeed; the `j`-th call reports `turnIncremented = true` exactly when it is
the wrapping call (`i + j + 1 = N`, i.e. the step from the last turn-order
position back to position 0), so exactly one call increments; afterwards the
session's `currentTurn` has grown by exactly 1, the ordered player list holds
the same user ids, and the initially active player (position `i`) is the
active one again. -/
theorem c5_full_cycle_advances_turn (st : Storage) (sid : Nat) (s : GameSession)
    (N i : Nat)
    (hsess : getGameSession st sid = some s)
    (ht : 1 ≤ s.currentTurn)
    (hN : (sessionPlayersAll st sid).length = N)
    (hN1 : 1 ≤ N)
    (hactive : ∀ p ∈ sessionPlayersAll st sid, p.isActive = true)
    (hdense : ∀ j (hj : j < (sessionPlayersAll st sid).length),
      ((sessionPlayersAll st sid).get ⟨j, hj⟩).turnOrder = some (j : Int))
    (huids : ((sessionPlayersAll st sid).map
      (fun p : SessionPlayer => p.userId)).Nodup)
    (hi : i < N)
    (hflags : ∀ j (hj : j < (sessionPlayersAll st sid).length),
      ((sessionPlayersAll st sid).get ⟨j, hj⟩).isActiveTurn = true ↔ j = i) :
    ∃ stf rs, advanceIterB sid N st = some (stf, rs) ∧
      rs.length = N ∧
      (∀ j, j < N → rs.getD j false = decide (i + j + 1 = N)) ∧
      (∃ s', getGameSession stf sid = some s' ∧
        s'.currentTurn = s.currentTurn + 1) ∧
      (sessionPlayersAll stf sid).map (fun p : SessionPlayer => p.userId) =
        (sessionPlayersAll st sid).map (fun p : SessionPlayer => p.userId) ∧
      ∀ j (hj : j < (sessionPlayersAll stf sid).length),
        ((sessionPlayersAll stf sid).get ⟨j, hj⟩).isActiveTurn = true ↔ j = i := by
  have hulen : ((sessionPlayersAll st sid).map
      (fun p : SessionPlayer => p.userId)).length = N := by
    rw [List.length_map, hN]
  have hready : AdvReady sid st ((sessionPlayersAll st sid).map
      (fun p : SessionPlayer => p.userId)) i s.currentTurn :=
    ⟨⟨s, hsess, rfl⟩, rfl, by omega, hflags⟩
  obtain ⟨stf, rs, hiter, hlen, hflagsr, hfinal⟩ :=
    advance_iter sid _ huids N (by omega) st i s.currentTurn ht hready
  rw [show (if i + N < ((sessionPlayersAll st sid).map
        (fun p : SessionPlayer => p.userId)).length then i + N
      else i + N - ((sessionPlayersAll st sid).map
        (fun p : SessionPlayer => p.userId)).length) = i from
      by rw [if_neg (by omega)]; omega,
    show (if i + N < ((sessionPlayersAll st sid).map
        (fun p : SessionPlayer => p.userId)).length then s.currentTurn
      else s.currentTurn + 1) = s.currentTurn + 1 from
      by rw [if_neg (by omega)]] at hfinal
  obtain ⟨hsess', hmap', -, hflags'⟩ := hfinal
  refine ⟨stf, rs, hiter, hlen, ?_, hsess', hmap', hflags'⟩
  intro j hj
  rw [hflagsr j hj, hulen]

/-- The session of the C5 witness: normal play at `currentTurn = 1`. -/
def c5WSession : GameSession :=
  { id := 1, code := "C", name := "S", gmId := "gm",
    encounterSentence := none, encounterNoun := none,
    encounterVerb := none, encounterAdjective := none,
    encounterThreat := none, encounterDifficulty := none,
    encounterLength := none, isPrepTurn := false, currentPrepWordIndex := 0,
    currentPrepWordTurnCount := 0, vowels := [], currentTurn := 1,
    isActive := true }

/-- The storage of the C5 witness: two active players with dense turn orders,
the first one holding the active-turn flag. -/
def c5WState : Storage :=
  { sessions := [c5WSession],
    sessionPlayers :=
      [{ sessionId := 1, userId := "p1", playerName := none, nerve := 8,
         maxNerve := 8, turnOrder := some 0, isActive := true,
         isActiveTurn := true, joinedAt := 0 },
       { sessionId := 1, userId := "p2", playerName := none, nerve := 7,
         maxNerve := 8, turnOrder := some 1, isActive := true,
         isActiveTurn := false, joinedAt := 1 }],
    words := [], wordOwners := [], wordCounter := 1 }

/-- C5 witness: with 2 active players starting at position 0 and
`currentTurn = 1`, both advance calls succeed, only the second reports
`turnIncremented`, and afterwards `currentTurn = 2`. -/
theorem c5_full_cycle_advances_turn_witness :
    getGameSession c5WState 1 = some c5WSession ∧
    (sessionPlayersAll c5WState 1).length = 2 ∧
    (1 : Int) ≤ c5WSession.currentTurn ∧
    ∃ stf rs, advanceIterB 1 2 c5WState = some (stf, rs) ∧
      rs.length = 2 ∧
      (∀ j, j < 2 → rs.getD j false = decide (0 + j + 1 = 2)) ∧
      ∃ s', getGameSession stf 1 = some s' ∧
        s'.currentTurn = c5WSession.currentTurn + 1 := by
  refine ⟨by decide, by decide, by decide, ?_⟩
  obtain ⟨stf, rs, hiter, hlen, hflagsr, hsess', hmap', hflags'⟩ :=
    c5_full_cycle_advances_turn c5WState 1 c5WSession 2 0 (by decide) (by decide)
      (by decide) (by decide) (by decide) (by decide) (by decide) (by decide)
      (by decide)
  exact ⟨stf, rs, hiter, hlen, hflagsr, hsess'⟩

/-! ### C6: recalculateTurnOrder is deterministic and idempotent -/

/-- The data `recalculateTurnOrder` reads from a player: the storage key's
user id and the sort inputs `nerve` and `joinedAt`. -/
def turnOrderInput (p : SessionPlayer) : String × Int × Int :=
  (p.userId, p.nerve, p.joinedAt)

/-- `stableInsert` only depends on the elements through a projection the
comparator factors through. -/
theorem stableInsert_congr {α β : Type} (le : α → α → Bool) (f : α → β)
    (hle : ∀ a b a' b', f a = f a' → f b = f b' → le a b = le a' b') :
    ∀ (l1 l2 : List α) (a1 a2 : α), l1.map f = l2.map f → f a1 = f a2 →
      (stableInsert le l1 a1).map f = (stableInsert le l2 a2).map f := by
  intro l1
  induction l1 with
  | nil =>
    intro l2 a1 a2 hl ha
    cases l2 with
    | nil =>
      show List.map f [a1] = List.map f [a2]
      simp [ha]
    | cons b bs => simp at hl
  | cons b1 bs1 ih =>
    intro l2 a1 a2 hl ha
    cases l2 with
    | nil => simp at hl
    | cons b2 bs2 =>
      simp only [List.map_cons, List.cons.injEq] at hl
      obtain ⟨hb, hbs⟩ := hl
      unfold stableInsert
      rw [hle b1 a1 b2 a2 hb ha]
      by_cases hc : le b2 a2 = true
      · rw [if_pos hc, if_pos hc, List.map_cons, List.map_cons, hb,
          ih bs2 a1 a2 hbs ha]
      · rw [if_neg hc, if_neg hc]
        simp [ha, hb, hbs]

/-- `stableSort` only depends on the elements through a projection the
comparator factors through. -/
theorem stableSort_congr {α β : Type} (le : α → α → Bool) (f : α → β)
    (hle : ∀ a b a' b', f a = f a' → f b = f b' → le a b = le a' b')
    (l1 l2 : List α) (hl : l1.map f = l2.map f) :
    (stableSort le l1).map f = (stableSort le l2).map f := by
  have aux : ∀ (l1 l2 acc1 acc2 : List α), l1.map f = l2.map f →
      acc1.map f = acc2.map f →
      (l1.foldl (stableInsert le) acc1).map f =
        (l2.foldl (stableInsert le) acc2).map f := by
    intro l1
    induction l1 with
    | nil =>
      intro l2 acc1 acc2 hl hacc
      cases l2 with
      | nil => simpa using hacc
      | cons b bs => simp at hl
    | cons a1 bs1 ih =>
      intro l2 acc1 acc2 hl hacc
      cases l2 with
      | nil => simp at hl
      | cons a2 bs2 =>
        simp only [List.map_cons, List.cons.injEq] at hl
        rw [List.foldl_cons, List.foldl_cons]
        exact ih bs2 _ _ hl.2
          (stableInsert_congr le f hle acc1 acc2 a1 a2 hacc hl.1)
  exact aux l1 l2 [] [] hl rfl

/-- `findIdx` over a pointwise rewrite that does not change the predicate's
verdict is unchanged. -/
theorem findIdx_map_pred {α : Type} (g : α → α) (p : α → Bool) (l : List α)
    (hp : ∀ x, p (g x) = p x) : (l.map g).findIdx p = l.findIdx p := by
  induction l with
  | nil => rfl
  | cons a l ih =>
    rw [List.map_cons, List.findIdx_cons, List.findIdx_cons, hp a, ih]

/-- `any` over a pointwise rewrite that does not change the predicate's
verdict is unchanged. -/
theorem any_map_pred {α : Type} (g : α → α) (p : α → Bool) (l : List α)
    (hp : ∀ x, p (g x) = p x) : (l.map g).any p = l.any p := by
  induction l with
  | nil => rfl
  | cons a l ih =>
    rw [List.map_cons, List.any_cons, List.any_cons, hp a, ih]

/-- With duplicate-free map keys, the key lookup of a stored player finds
exactly that player (the JS `Map` guarantee, for the list model). -/
theorem find?_key_of_mem (l : List SessionPlayer) (sid : Nat) (q : SessionPlayer)
    (hkeys : (playerKeys l).Nodup) (hq : q ∈ l) (hsid : q.sessionId = sid) :
    l.find? (fun p => playerKeyEq p sid q.userId) = some q := by
  induction l with
  | nil => cases hq
  | cons a l ih =>
    rw [playerKeys, List.map_cons, List.nodup_cons] at hkeys
    cases hk : playerKeyEq a sid q.userId
    · have hqa : q ≠ a := by
        intro he
        rw [← he] at hk
        unfold playerKeyEq at hk
        rw [hsid] at hk
        simp at hk
      have hql : q ∈ l := by
        cases List.mem_cons.mp hq with
        | inl h => exact absurd h hqa
        | inr h => exact h
      simp only [List.find?_cons, hk, cond_false]
      exact ih hkeys.2 hql
    · simp only [List.find?_cons, hk, cond_true]
      have hkey_a : a.sessionId = sid ∧ a.userId = q.userId := by
        have h := hk
        unfold playerKeyEq at h
        rw [Bool.and_eq_true] at h
        exact ⟨eq_of_beq h.1, eq_of_beq h.2⟩
      cases List.mem_cons.mp hq with
      | inl he => rw [he]
      | inr hl =>
        exfalso
        apply hkeys.1
        rw [show (a.sessionId, a.userId) = (q.sessionId, q.userId) from by
          rw [hkey_a.1, hkey_a.2, hsid]]
        exact List.mem_map_of_mem _ hl

/-- `MemStorage.getPlayerInSession` finds a stored session player at its own
key, given duplicate-free keys. -/
theorem getPlayerInSession_of_mem (st : Storage) (sid : Nat) (q : SessionPlayer)
    (hkeys : (playerKeys st.sessionPlayers).Nodup)
    (hq : q ∈ st.sessionPlayers) (hsid : q.sessionId = sid) :
    getPlayerInSession st sid q.userId = some q :=
  find?_key_of_mem st.sessionPlayers sid q hkeys hq hsid

/-- With duplicate-free keys, the user ids within one session are
duplicate-free. -/
theorem filter_userIds_nodup (l : List SessionPlayer) (sid : Nat)
    (hkeys : (playerKeys l).Nodup) :
    ((l.filter (fun p => p.sessionId == sid)).map
      (fun p : SessionPlayer => p.userId)).Nodup := by
  induction l with
  | nil => exact List.nodup_nil
  | cons a l ih =>
    rw [playerKeys, List.map_cons, List.nodup_cons] at hkeys
    rw [List.filter_cons]
    by_cases ha : (a.sessionId == sid) = true
    · rw [if_pos ha, List.map_cons, List.nodup_cons]
      refine ⟨?_, ih hkeys.2⟩
      intro hmem
      obtain ⟨x, hx, hxe⟩ := List.mem_map.mp hmem
      have hxl : x ∈ l := List.mem_of_mem_filter hx
      have hxs : x.sessionId = sid := by
        have h := List.of_mem_filter hx
        exact eq_of_beq h
      apply hkeys.1
      rw [show (a.sessionId, a.userId) = (x.sessionId, x.userId) from by
        rw [hxs, eq_of_beq ha, hxe]]
      exact List.mem_map_of_mem _ hxl
    · rw [if_neg ha]
      exact ih hkeys.2

/-- The nerve-descending / joined-ascending comparator is total. -/
theorem nerveJoinCmp_total (a b : SessionPlayer) :
    nerveJoinCmp a b ≤ 0 ∨ nerveJoinCmp b a ≤ 0 := by
  unfold nerveJoinCmp
  split_ifs <;> omega

/-- The nerve-descending / joined-ascending comparator is transitive. -/
theorem nerveJoinCmp_trans (a b c : SessionPlayer)
    (hab : nerveJoinCmp a b ≤ 0) (hbc : nerveJoinCmp b c ≤ 0) :
    nerveJoinCmp a c ≤ 0 := by
  unfold nerveJoinCmp at hab hbc ⊢
  split_ifs at hab hbc ⊢ <;> omega

/-- Two storages with equal fields are equal. -/
theorem Storage_eq_of_fields (A B : Storage)
    (h1 : A.sessions = B.sessions) (h2 : A.sessionPlayers = B.sessionPlayers)
    (h3 : A.words = B.words) (h4 : A.wordOwners = B.wordOwners)
    (h5 : A.wordCounter = B.wordCounter) : A = B := by
  cases A
  cases B
  dsimp only at h1 h2 h3 h4 h5
  subst h1
  subst h2
  subst h3
  subst h4
  subst h5
  rfl

/-- The per-record effect of the whole `forEach` assignment loop of
`recalculateTurnOrder` over the sorted list `l`, starting at index `k`: a
session player whose user id occurs in `l` gets `turnOrder := k + position`. -/
def assignUpd (sid : Nat) (l : List SessionPlayer) (k : Nat)
    (q : SessionPlayer) : SessionPlayer :=
  if q.sessionId == sid && l.any (fun p => p.userId == q.userId) then
    { q with
        turnOrder :=
          some ((k + l.findIdx (fun p => p.userId == q.userId) : Nat) : Int) }
  else q

/-- `assignUpd` only writes `turnOrder`. -/
theorem assignUpd_fields (sid : Nat) (l : List SessionPlayer) (k : Nat)
    (q : SessionPlayer) :
    (assignUpd sid l k q).sessionId = q.sessionId ∧
    (assignUpd sid l k q).userId = q.userId ∧
    (assignUpd sid l k q).nerve = q.nerve ∧
    (assignUpd sid l k q).joinedAt = q.joinedAt := by
  unfold assignUpd; split <;> exact ⟨rfl, rfl, rfl, rfl⟩

/-- The assignment loop, run over a list with duplicate-free user ids, acts
on the player table as the pointwise update `assignUpd`. -/
theorem assignTurnOrdersFrom_players (sid : Nat) :
    ∀ (l : List SessionPlayer) (k : Nat) (st : Storage),
    (l.map (fun p : SessionPlayer => p.userId)).Nodup →
    (assignTurnOrdersFrom sid k l st).sessionPlayers =
      st.sessionPlayers.map (assignUpd sid l k) := by
  intro l
  induction l with
  | nil =>
    intro k st _
    show st.sessionPlayers = st.sessionPlayers.map (assignUpd sid [] k)
    have e : st.sessionPlayers.map (assignUpd sid [] k) =
        st.sessionPlayers.map id :=
      List.map_congr_left (fun q _ => by simp [assignUpd])
    rw [e, List.map_id]
  | cons p l ih =>
    intro k st hnodup
    rw [List.map_cons, List.nodup_cons] at hnodup
    rw [show assignTurnOrdersFrom sid k (p :: l) st =
        assignTurnOrdersFrom sid (k + 1) l
          (writeTurnOrder st sid p.userId (k : Int)) from rfl]
    rw [ih (k + 1) _ hnodup.2]
    rw [show (writeTurnOrder st sid p.userId (k : Int)).sessionPlayers =
        st.sessionPlayers.map (fun q =>
          if playerKeyEq q sid p.userId then
            { q with turnOrder := some (k : Int) } else q) from rfl]
    rw [List.map_map]
    refine List.map_congr_left ?_
    intro q _
    show assignUpd sid l (k + 1)
        (if playerKeyEq q sid p.userId then
          { q with turnOrder := some (k : Int) } else q) =
      assignUpd sid (p :: l) k q
    by_cases hkey : playerKeyEq q sid p.userId = true
    · have h := hkey
      unfold playerKeyEq at h
      rw [Bool.and_eq_true] at h
      have hsid : q.sessionId = sid := eq_of_beq h.1
      have huid : q.userId = p.userId := eq_of_beq h.2
      have hany : l.any (fun p' => p'.userId == q.userId) = false := by
        by_contra hc
        have htrue : l.any (fun p' => p'.userId == q.userId) = true := by
          cases h' : l.any (fun p' => p'.userId == q.userId)
          · exact absurd h' hc
          · rfl
        obtain ⟨x, hx, hbx⟩ := List.any_eq_true.mp htrue
        have hxe : x.userId = q.userId := eq_of_beq hbx
        apply hnodup.1
        rw [← huid, ← hxe]
        exact List.mem_map_of_mem _ hx
      have hpu : (p.userId == q.userId) = true := by
        rw [huid]
        exact beq_self_eq_true _
      rw [if_pos hkey]
      dsimp only [assignUpd]
      simp [hany, hpu, h.1, List.any_cons, List.findIdx_cons]
    · rw [if_neg hkey]
      by_cases hsid : (q.sessionId == sid) = true
      · have huid : (q.userId == p.userId) = false := by
          cases h' : (q.userId == p.userId)
          · rfl
          · exact absurd (by unfold playerKeyEq; rw [hsid, h']; rfl) hkey
        have huid' : (p.userId == q.userId) = false := by
          rw [beq_eq_false_iff_ne] at huid ⊢
          exact fun h => huid h.symm
        cases hany2 : l.any (fun p' => p'.userId == q.userId)
        · simp [assignUpd, hsid, hany2, List.any_cons, huid']
        · simp only [assignUpd, hsid, hany2, List.any_cons, huid',
            List.findIdx_cons, Bool.true_and, Bool.false_or, cond_false,
            if_true]
          congr 2
          omega
      · have hsid' : (q.sessionId == sid) = false := by
          cases h' : (q.sessionId == sid)
          · rfl
          · exact absurd h' hsid
        simp [assignUpd, hsid']

/-- A player record with its `turnOrder` replaced. -/
def withTurnOrder (p : SessionPlayer) (t : Option Int) : SessionPlayer :=
  { p with turnOrder := t }

/-- `assignUpd` on a session player whose user id occurs in the list. -/
theorem assignUpd_pos (sid : Nat) (l : List SessionPlayer) (k : Nat)
    (q : SessionPlayer)
    (hc : (q.sessionId == sid && l.any (fun p => p.userId == q.userId)) = true) :
    assignUpd sid l k q =
      withTurnOrder q
        (some ((k + l.findIdx (fun p => p.userId == q.userId) : Nat) : Int)) := by
  unfold assignUpd withTurnOrder
  rw [if_pos hc]

/-- `assignUpd` on a record outside the session or absent from the list. -/
theorem assignUpd_neg (sid : Nat) (l : List SessionPlayer) (k : Nat)
    (q : SessionPlayer)
    (hc : (q.sessionId == sid && l.any (fun p => p.userId == q.userId)) = false) :
    assignUpd sid l k q = q := by
  unfold assignUpd
  rw [if_neg (by rw [hc]; exact Bool.false_ne_true)]

/-- Re-applying the assignment update (over the already-updated sorted list)
changes nothing: the second write stores the value already present. -/
theorem assignUpd_twice (sid : Nat) (sorted : List SessionPlayer)
    (q : SessionPlayer) :
    assignUpd sid (sorted.map (assignUpd sid sorted 0)) 0
      (assignUpd sid sorted 0 q) = assignUpd sid sorted 0 q := by
  have hany : ∀ u : String, (sorted.map (assignUpd sid sorted 0)).any
      (fun p => p.userId == u) = sorted.any (fun p => p.userId == u) :=
    fun u => any_map_pred _ _ sorted (fun x => by
      show ((assignUpd sid sorted 0 x).userId == u) = (x.userId == u)
      rw [(assignUpd_fields sid sorted 0 x).2.1])
  have hidx : ∀ u : String, (sorted.map (assignUpd sid sorted 0)).findIdx
      (fun p => p.userId == u) = sorted.findIdx (fun p => p.userId == u) :=
    fun u => findIdx_map_pred _ _ sorted (fun x => by
      show ((assignUpd sid sorted 0 x).userId == u) = (x.userId == u)
      rw [(assignUpd_fields sid sorted 0 x).2.1])
  by_cases hc : (q.sessionId == sid &&
      sorted.any (fun p => p.userId == q.userId)) = true
  · rw [assignUpd_pos sid sorted 0 q hc]
    rw [assignUpd_pos sid (sorted.map (assignUpd sid sorted 0)) 0
      (withTurnOrder q (some ((0 + sorted.findIdx
        (fun p => p.userId == q.userId) : Nat) : Int)))
      (by
        show (q.sessionId == sid && (sorted.map (assignUpd sid sorted 0)).any
          (fun p => p.userId == q.userId)) = true
        rw [hany q.userId]
        exact hc)]
    show withTurnOrder q
        (some ((0 + (sorted.map (assignUpd sid sorted 0)).findIdx
          (fun p => p.userId == q.userId) : Nat) : Int)) =
      withTurnOrder q
        (some ((0 + sorted.findIdx (fun p => p.userId == q.userId) : Nat) : Int))
    rw [hidx q.userId]
  · have hcf : (q.sessionId == sid &&
        sorted.any (fun p => p.userId == q.userId)) = false := by
      cases h' : (q.sessionId == sid && sorted.any (fun p => p.userId == q.userId))
      · rfl
      · exact absurd h' hc
    rw [assignUpd_neg sid sorted 0 q hcf]
    rw [assignUpd_neg sid (sorted.map (assignUpd sid sorted 0)) 0 q
      (by rw [hany q.userId]; exact hcf)]

/-- Key lookup after `recalculateTurnOrder`: the player sitting at position
`j` of the nerve-sorted list is stored with `turnOrder = j`. -/
theorem assigned_lookup (st : Storage) (sid : Nat)
    (sorted : List SessionPlayer)
    (hkeys : (playerKeys st.sessionPlayers).Nodup)
    (hfu : (sorted.map (fun p : SessionPlayer => p.userId)).Nodup)
    (hplayers : (recalculateTurnOrder st sid).sessionPlayers =
      st.sessionPlayers.map (assignUpd sid sorted 0))
    (j : Nat) (hj : j < sorted.length)
    (hmeml : sorted.get ⟨j, hj⟩ ∈ st.sessionPlayers)
    (hsid : (sorted.get ⟨j, hj⟩).sessionId = sid) :
    getPlayerInSession (recalculateTurnOrder st sid) sid
        (sorted.get ⟨j, hj⟩).userId =
      some (withTurnOrder (sorted.get ⟨j, hj⟩) (some (j : Int))) := by
  unfold getPlayerInSession
  rw [hplayers]
  rw [find?_map_pred
      (p := fun p => playerKeyEq p sid (sorted.get ⟨j, hj⟩).userId)
      (g := assignUpd sid sorted 0) _ (fun x => by
        show playerKeyEq (assignUpd sid sorted 0 x) sid
            (sorted.get ⟨j, hj⟩).userId =
          playerKeyEq x sid (sorted.get ⟨j, hj⟩).userId
        unfold playerKeyEq
        rw [(assignUpd_fields sid sorted 0 x).1,
          (assignUpd_fields sid sorted 0 x).2.1])]
  rw [find?_key_of_mem st.sessionPlayers sid _ hkeys hmeml hsid]
  rw [Option.map_some']
  have hmem : sorted.get ⟨j, hj⟩ ∈ sorted := List.get_mem _ j hj
  have hidx : sorted.findIdx
      (fun p => p.userId == (sorted.get ⟨j, hj⟩).userId) = j :=
    findIdx_key_of_nodup sorted (fun p : SessionPlayer => p.userId) j hj hfu
  have hanyj : sorted.any
      (fun p => p.userId == (sorted.get ⟨j, hj⟩).userId) = true :=
    List.any_eq_true.mpr ⟨_, hmem, beq_self_eq_true _⟩
  have hcond : ((sorted.get ⟨j, hj⟩).sessionId == sid &&
      sorted.any (fun p => p.userId == (sorted.get ⟨j, hj⟩).userId)) = true := by
    rw [hsid, hanyj, beq_self_eq_true]
    rfl
  rw [assignUpd_pos sid sorted 0 _ hcond, hidx, Nat.zero_add]

/-- `recalculateTurnOrder` is idempotent: the second run stores in every
player's `turnOrder` the value it already holds. -/
theorem recalculateTurnOrder_idem (st : Storage) (sid : Nat)
    (hkeys : (playerKeys st.sessionPlayers).Nodup) :
    recalculateTurnOrder (recalculateTurnOrder st sid) sid =
      recalculateTurnOrder st sid := by
  set qs := st.sessionPlayers.filter (fun p => p.sessionId == sid) with hqs
  set sorted := stableSort (fun a b => nerveJoinCmp a b ≤ 0) qs with hsorted
  have hfu : (sorted.map (fun p : SessionPlayer => p.userId)).Nodup := by
    have hperm : sorted.Perm qs := by
      rw [hsorted]; exact stableSort_perm _ qs
    refine (hperm.map _).nodup_iff.mpr ?_
    rw [hqs]
    exact filter_userIds_nodup st.sessionPlayers sid hkeys
  have hst1p : (recalculateTurnOrder st sid).sessionPlayers =
      st.sessionPlayers.map (assignUpd sid sorted 0) := by
    rw [show recalculateTurnOrder st sid =
        assignTurnOrdersFrom sid 0 sorted st from rfl]
    exact assignTurnOrdersFrom_players sid sorted 0 st hfu
  have hg : ∀ a b : SessionPlayer,
      decide (nerveJoinCmp (assignUpd sid sorted 0 a)
        (assignUpd sid sorted 0 b) ≤ 0) = decide (nerveJoinCmp a b ≤ 0) := by
    intro a b
    unfold nerveJoinCmp
    rw [(assignUpd_fields sid sorted 0 a).2.2.1,
      (assignUpd_fields sid sorted 0 a).2.2.2,
      (assignUpd_fields sid sorted 0 b).2.2.1,
      (assignUpd_fields sid sorted 0 b).2.2.2]
  have hq1 : (recalculateTurnOrder st sid).sessionPlayers.filter
      (fun p => p.sessionId == sid) = qs.map (assignUpd sid sorted 0) := by
    rw [hst1p, filter_map_pred (g := assignUpd sid sorted 0)
      (p := fun p : SessionPlayer => p.sessionId == sid) _ (fun x => by
        show ((assignUpd sid sorted 0 x).sessionId == sid) =
          (x.sessionId == sid)
        rw [(assignUpd_fields sid sorted 0 x).1])]
  have hsorted1 : stableSort (fun a b => nerveJoinCmp a b ≤ 0)
      ((recalculateTurnOrder st sid).sessionPlayers.filter
        (fun p => p.sessionId == sid)) =
      sorted.map (assignUpd sid sorted 0) := by
    rw [hq1, stableSort_map (fun a b => nerveJoinCmp a b ≤ 0)
      (assignUpd sid sorted 0) hg qs, hsorted]
  have hfu1 : ((sorted.map (assignUpd sid sorted 0)).map
      (fun p : SessionPlayer => p.userId)).Nodup := by
    rw [List.map_map,
      show ((fun p : SessionPlayer => p.userId) ∘ assignUpd sid sorted 0) =
        (fun p : SessionPlayer => p.userId) from
      funext (fun p => (assignUpd_fields sid sorted 0 p).2.1)]
    exact hfu
  have hst2p : (recalculateTurnOrder (recalculateTurnOrder st sid) sid).sessionPlayers =
      (recalculateTurnOrder st sid).sessionPlayers.map
        (assignUpd sid (sorted.map (assignUpd sid sorted 0)) 0) := by
    rw [show recalculateTurnOrder (recalculateTurnOrder st sid) sid =
        assignTurnOrdersFrom sid 0
          (stableSort (fun a b => nerveJoinCmp a b ≤ 0)
            ((recalculateTurnOrder st sid).sessionPlayers.filter
              (fun p => p.sessionId == sid)))
          (recalculateTurnOrder st sid) from rfl]
    rw [assignTurnOrdersFrom_players sid _ 0 _
      (by rw [hsorted1]; exact hfu1)]
    rw [hsorted1]
  refine Storage_eq_of_fields _ _ ?_ ?_ ?_ ?_ ?_
  · exact (recalculateTurnOrder_others (recalculateTurnOrder st sid) sid).1
  · rw [hst2p, hst1p, List.map_map]
    refine List.map_congr_left ?_
    intro q _
    exact assignUpd_twice sid sorted q
  · exact (recalculateTurnOrder_others (recalculateTurnOrder st sid) sid).2.1
  · exact (recalculateTurnOrder_others (recalculateTurnOrder st sid) sid).2.2.1
  · exact (recalculateTurnOrder_others (recalculateTurnOrder st sid) sid).2.2.2

/-- C6: with duplicate-free storage keys (the JS `Map` invariant),
`recalculateTurnOrder` (1) stores, for the player at each position `j` of the
session's player list sorted by the nerve-descending / joinedAt-ascending
comparator, the dense 0-based `turnOrder = j`; (2) that sorted list is a
permutation of the session's players ordered by the comparator; (3) the
sorted sequence of `(userId, nerve, joinedAt)` data — and hence the
assignment — is a function of the players' `(userId, nerve, joinedAt)` data
only; and (4) a second run changes nothing (idempotence). -/
theorem c6_recalculate_deterministic_idempotent (st : Storage) (sid : Nat)
    (hkeys : (playerKeys st.sessionPlayers).Nodup) :
    (∀ j (hj : j < (stableSort (fun a b => nerveJoinCmp a b ≤ 0)
        (st.sessionPlayers.filter (fun p => p.sessionId == sid))).length),
      getPlayerInSession (recalculateTurnOrder st sid) sid
          ((stableSort (fun a b => nerveJoinCmp a b ≤ 0)
            (st.sessionPlayers.filter (fun p => p.sessionId == sid))).get
            ⟨j, hj⟩).userId =
        some (withTurnOrder
          ((stableSort (fun a b => nerveJoinCmp a b ≤ 0)
            (st.sessionPlayers.filter (fun p => p.sessionId == sid))).get
            ⟨j, hj⟩) (some (j : Int)))) ∧
    (stableSort (fun a b => nerveJoinCmp a b ≤ 0)
        (st.sessionPlayers.filter (fun p => p.sessionId == sid))).Perm
      (st.sessionPlayers.filter (fun p => p.sessionId == sid)) ∧
    (stableSort (fun a b => nerveJoinCmp a b ≤ 0)
        (st.sessionPlayers.filter (fun p => p.sessionId == sid))).Pairwise
      (fun a b => nerveJoinCmp a b ≤ 0) ∧
    (∀ st2 : Storage,
      (st2.sessionPlayers.filter (fun p => p.sessionId == sid)).map
          turnOrderInput =
        (st.sessionPlayers.filter (fun p => p.sessionId == sid)).map
          turnOrderInput →
      (stableSort (fun a b => nerveJoinCmp a b ≤ 0)
          (st2.sessionPlayers.filter (fun p => p.sessionId == sid))).map
          turnOrderInput =
        (stableSort (fun a b => nerveJoinCmp a b ≤ 0)
          (st.sessionPlayers.filter (fun p => p.sessionId == sid))).map
          turnOrderInput) ∧
    recalculateTurnOrder (recalculateTurnOrder st sid) sid =
      recalculateTurnOrder st sid := by
  set qs := st.sessionPlayers.filter (fun p => p.sessionId == sid) with hqs
  set sorted := stableSort (fun a b => nerveJoinCmp a b ≤ 0) qs with hsorted
  have hfu : (sorted.map (fun p : SessionPlayer => p.userId)).Nodup := by
    have hperm : sorted.Perm qs := by
      rw [hsorted]; exact stableSort_perm _ qs
    refine (hperm.map _).nodup_iff.mpr ?_
    rw [hqs]
    exact filter_userIds_nodup st.sessionPlayers sid hkeys
  refine ⟨?_, ?_, ?_, ?_, recalculateTurnOrder_idem st sid hkeys⟩
  · intro j hj
    have hmem : sorted.get ⟨j, hj⟩ ∈ sorted := List.get_mem _ j hj
    have hmemf : sorted.get ⟨j, hj⟩ ∈ qs := (stableSort_mem _ _ _).mp hmem
    have hmeml : sorted.get ⟨j, hj⟩ ∈ st.sessionPlayers := by
      have h := hmemf
      rw [hqs] at h
      exact List.mem_of_mem_filter h
    have hsid2 : (sorted.get ⟨j, hj⟩).sessionId = sid := by
      have h := hmemf
      rw [hqs] at h
      have h2 := List.of_mem_filter h
      exact eq_of_beq h2
    have hplayers : (recalculateTurnOrder st sid).sessionPlayers =
        st.sessionPlayers.map (assignUpd sid sorted 0) := by
      rw [show recalculateTurnOrder st sid =
          assignTurnOrdersFrom sid 0 sorted st from rfl]
      exact assignTurnOrdersFrom_players sid sorted 0 st hfu
    exact assigned_lookup st sid sorted hkeys hfu hplayers j hj hmeml hsid2
  · rw [hsorted]
    exact stableSort_perm _ qs
  · rw [hsorted]
    refine List.Pairwise.imp ?_ (stableSort_pairwise _ ?_ ?_ qs)
    · intro a b h
      exact of_decide_eq_true h
    · intro a b
      rcases nerveJoinCmp_total a b with h | h
      · exact Or.inl (decide_eq_true h)
      · exact Or.inr (decide_eq_true h)
    · intro a b c hab hbc
      exact decide_eq_true
        (nerveJoinCmp_trans a b c (of_decide_eq_true hab) (of_decide_eq_true hbc))
  · intro st2 hproj
    rw [hsorted]
    refine stableSort_congr _ turnOrderInput ?_ _ _ ?_
    · intro a b a' b' ha hb
      simp only [turnOrderInput, Prod.mk.injEq] at ha hb
      show decide (nerveJoinCmp a b ≤ 0) = decide (nerveJoinCmp a' b' ≤ 0)
      unfold nerveJoinCmp
      rw [ha.2.1, ha.2.2, hb.2.1, hb.2.2]
    · rw [hqs] at hproj
      exact hproj

/-- The storage of the C6 witness: one session with two players, the later
joiner holding the higher nerve. -/
def c6WState : Storage :=
  { sessions := [],
    sessionPlayers :=
      [{ sessionId := 1, userId := "a", playerName := none, nerve := 5,
         maxNerve := 8, turnOrder := none, isActive := true,
         isActiveTurn := false, joinedAt := 10 },
       { sessionId := 1, userId := "b", playerName := none, nerve := 7,
         maxNerve := 8, turnOrder := none, isActive := true,
         isActiveTurn := false, joinedAt := 5 }],
    words := [], wordOwners := [], wordCounter := 1 }

/-- C6 witness: the storage keys are duplicate-free, and re-running
`recalculateTurnOrder` leaves the storage unchanged. -/
theorem c6_recalculate_deterministic_idempotent_witness :
    (playerKeys c6WState.sessionPlayers).Nodup ∧
    recalculateTurnOrder (recalculateTurnOrder c6WState 1) 1 =
      recalculateTurnOrder c6WState 1 :=
  ⟨by decide,
    (c6_recalculate_deterministic_idempotent c6WState 1 (by decide)).2.2.2.2⟩

end RPGCompanion
